import Mathlib

/-!
# Migration-file parsing and schema qualification (cmd/sqlrunner/cmd.go)

A shallow embedding of `extractSQLSection`, `applySchemaExact` and the skeleton
written by `generateSQLFile`, together with the Go standard-library string
functions they call (`strings.Split`, `strings.ToLower`, `strings.TrimSpace`,
`strings.HasPrefix`, `strings.Join`, `strings.ReplaceAll`, `strings.HasSuffix`,
`strings.TrimSuffix` and the `unicode/utf8` decoder and encoder).

A Go string is a sequence of bytes.  It is modelled as a list of natural
numbers, each byte being a number below 256.  Slicing is byte slicing, and a
slice expression whose bounds are out of range is a run-time panic, which the
embedding makes explicit as the outcome `panic`.

The only part of the standard library that is not spelled out is the Unicode
case table behind `unicode.ToLower` for runes above U+007F.  It is a parameter
`caseTable` of everything that lower-cases text; every theorem holds for every
such table.
-/

set_option maxRecDepth 8000

namespace SqlRunner

/-- A Go string: its bytes in order. -/
abbrev GoString := List Nat

/-! ## unicode/utf8 -/

/-- The rune U+FFFD, which the decoder returns for invalid input. -/
def RuneError : Nat := 0xFFFD

/-- The table `first` of unicode/utf8: information about the first byte of a
UTF-8 sequence.  `0xF0` is an ASCII byte, `0xF1` an invalid byte; otherwise the
low three bits are the sequence length and the high four bits index
`acceptRanges`. -/
def first (b : Nat) : Nat :=
  if b < 0x80 then 0xF0
  else if b < 0xC2 then 0xF1
  else if b < 0xE0 then 0x02
  else if b = 0xE0 then 0x13
  else if b < 0xED then 0x03
  else if b = 0xED then 0x23
  else if b < 0xF0 then 0x03
  else if b = 0xF0 then 0x34
  else if b < 0xF4 then 0x04
  else if b = 0xF4 then 0x44
  else 0xF1

/-- The table `acceptRanges` of unicode/utf8: the admissible range `(lo, hi)` of
the second byte of a sequence. -/
def acceptRanges (i : Nat) : Nat × Nat :=
  match i with
  | 0 => (0x80, 0xBF)
  | 1 => (0xA0, 0xBF)
  | 2 => (0x80, 0x9F)
  | 3 => (0x90, 0xBF)
  | 4 => (0x80, 0x8F)
  | _ => (0, 0)

/-- The function utf8.DecodeRuneInString: the first rune of `s` and its width in
bytes; `(RuneError, 1)` for an invalid sequence and `(RuneError, 0)` for the
empty string. -/
def DecodeRuneInString (s : GoString) : Nat × Nat :=
  match s with
  | [] => (RuneError, 0)
  | s0 :: _ =>
    let x := first s0
    if x ≥ 0xF0 then
      (if x = 0xF0 then s0 else RuneError, 1)
    else
      let sz := x % 8
      let accept := acceptRanges (x / 16)
      if s.length < sz then (RuneError, 1)
      else
        let s1 := s.getD 1 0
        if s1 < accept.1 ∨ accept.2 < s1 then (RuneError, 1)
        else if sz ≤ 2 then ((s0 % 32) * 64 + s1 % 64, 2)
        else
          let s2 := s.getD 2 0
          if s2 < 0x80 ∨ 0xBF < s2 then (RuneError, 1)
          else if sz ≤ 3 then ((s0 % 16) * 4096 + (s1 % 64) * 64 + s2 % 64, 3)
          else
            let s3 := s.getD 3 0
            if s3 < 0x80 ∨ 0xBF < s3 then (RuneError, 1)
            else ((s0 % 8) * 262144 + (s1 % 64) * 4096 + (s2 % 64) * 64 + s3 % 64, 4)

/-- The function utf8.RuneStart: the byte is not a continuation byte. -/
def RuneStart (b : Nat) : Bool := !(0x80 ≤ b && b < 0xC0)

/-- The backward scan of utf8.DecodeLastRuneInString: starting below the last
byte of `s[:e]`, step back over at most three bytes until a byte that can
start a rune; the scan ends one below the limit `e - 4` (and not below 0) when
there is none. -/
def lastRuneStart (s : GoString) (e : Nat) : Nat :=
  if 2 ≤ e ∧ RuneStart (s.getD (e - 2) 0) = true then e - 2
  else if 3 ≤ e ∧ RuneStart (s.getD (e - 3) 0) = true then e - 3
  else if 4 ≤ e ∧ RuneStart (s.getD (e - 4) 0) = true then e - 4
  else e - 5

/-- The function utf8.DecodeLastRuneInString: the last rune of `s` and its
width. -/
def DecodeLastRuneInString (s : GoString) : Nat × Nat :=
  let e := s.length
  if e = 0 then (RuneError, 0)
  else
    let r := s.getD (e - 1) 0
    if r < 0x80 then (r, 1)
    else
      let start := lastRuneStart s e
      let d := DecodeRuneInString (s.drop start)
      if start + d.2 ≠ e then (RuneError, 1) else d

/-- The function utf8.RuneLen: the number of bytes of the encoding of a rune
(0 stands for the -1 that Go returns for a value that is no valid rune). -/
def RuneLen (r : Nat) : Nat :=
  if r ≤ 0x7F then 1
  else if r ≤ 0x7FF then 2
  else if 0xD800 ≤ r ∧ r ≤ 0xDFFF then 0
  else if r ≤ 0xFFFF then 3
  else if r ≤ 0x10FFFF then 4
  else 0

/-- The function utf8.AppendRune applied to the empty buffer: the UTF-8
encoding of a rune; surrogates and values above U+10FFFF are encoded as
U+FFFD. -/
def EncodeRune (r : Nat) : GoString :=
  if r ≤ 0x7F then [r]
  else if r ≤ 0x7FF then [0xC0 + r / 64, 0x80 + r % 64]
  else if 0x10FFFF < r ∨ (0xD800 ≤ r ∧ r ≤ 0xDFFF) then [0xEF, 0xBF, 0xBD]
  else if r ≤ 0xFFFF then [0xE0 + r / 4096, 0x80 + r / 64 % 64, 0x80 + r % 64]
  else [0xF0 + r / 262144, 0x80 + r / 4096 % 64, 0x80 + r / 64 % 64, 0x80 + r % 64]

/-- The bytes of a string literal: the UTF-8 encoding of its characters. -/
def bytes (s : String) : GoString :=
  s.toList.flatMap (fun c => EncodeRune c.toNat)

/-! ## unicode -/

/-- The function unicode.IsSpace: the Latin-1 spaces and the White_Space
table. -/
def IsSpace (r : Nat) : Bool :=
  if r ≤ 0xFF then
    r = 0x09 ∨ r = 0x0A ∨ r = 0x0B ∨ r = 0x0C ∨ r = 0x0D ∨ r = 0x20 ∨ r = 0x85 ∨ r = 0xA0
  else
    r = 0x1680 ∨ (0x2000 ≤ r ∧ r ≤ 0x200A) ∨ r = 0x2028 ∨ r = 0x2029 ∨ r = 0x202F
      ∨ r = 0x205F ∨ r = 0x3000

/-- The function unicode.ToLower.  ASCII is handled in place; the case table for
the other runes (`To(LowerCase, r)` over `unicode.CaseRanges`) is the parameter
`caseTable`. -/
def unicodeToLower (caseTable : Nat → Nat) (r : Nat) : Nat :=
  if r ≤ 0x7F then
    if 0x41 ≤ r ∧ r ≤ 0x5A then r + 0x20 else r
  else caseTable r

/-! ## strings -/

/-- The table `asciiSpace` of package strings. -/
def asciiSpace (c : Nat) : Bool :=
  c = 0x09 ∨ c = 0x0A ∨ c = 0x0B ∨ c = 0x0C ∨ c = 0x0D ∨ c = 0x20

/-- The function strings.TrimLeftFunc(s, unicode.IsSpace): drop leading runes
while they are spaces.  `fuel` bounds the number of runes; `s.length` is
enough. -/
def trimLeftSpace : Nat → GoString → GoString
  | 0, s => s
  | fuel + 1, s =>
    match s with
    | [] => []
    | _ :: _ =>
      let d := DecodeRuneInString s
      if IsSpace d.1 = true then trimLeftSpace fuel (s.drop d.2) else s

/-- The function strings.lastIndexFunc(s, unicode.IsSpace, false) run on `s[:i]`:
the index of the last rune (decoding backwards) that is not a space, if any. -/
def lastIndexNotSpace : Nat → GoString → Nat → Option Nat
  | 0, _, _ => none
  | fuel + 1, s, i =>
    if i = 0 then none
    else
      let d := DecodeLastRuneInString (s.take i)
      if IsSpace d.1 = true then lastIndexNotSpace fuel s (i - d.2) else some (i - d.2)

/-- The function strings.TrimRightFunc(s, unicode.IsSpace). -/
def trimRightSpace (s : GoString) : GoString :=
  match lastIndexNotSpace s.length s s.length with
  | none => []
  | some i =>
    if 0x80 ≤ s.getD i 0 then s.take (i + (DecodeRuneInString (s.drop i)).2)
    else s.take (i + 1)

/-- The second loop of strings.TrimSpace, run on the reversed remainder: skip
trailing ASCII spaces, and hand over to the rune-aware trimming at the first
non-ASCII byte. -/
def trimSpaceStop : GoString → GoString
  | [] => []
  | c :: r =>
    if 0x80 ≤ c then trimRightSpace (c :: r).reverse
    else if asciiSpace c = true then trimSpaceStop r
    else (c :: r).reverse

/-- The function strings.TrimSpace: skip leading ASCII spaces; at the first
non-ASCII byte fall back to trimming runes on both sides of the remainder;
otherwise trim the end. -/
def TrimSpace : GoString → GoString
  | [] => []
  | c :: s =>
    if 0x80 ≤ c then trimRightSpace (trimLeftSpace (c :: s).length (c :: s))
    else if asciiSpace c = true then TrimSpace s
    else trimSpaceStop (c :: s).reverse

/-- The second loop of strings.Map(unicode.ToLower, s): every rune of the rest
of the string (an invalid byte counts as U+FFFD) is mapped and encoded. -/
def mapRest (caseTable : Nat → Nat) : Nat → GoString → GoString
  | 0, _ => []
  | fuel + 1, s =>
    match s with
    | [] => []
    | _ :: _ =>
      let d := DecodeRuneInString s
      EncodeRune (unicodeToLower caseTable d.1) ++ mapRest caseTable fuel (s.drop d.2)

/-- The first loop of strings.Map(unicode.ToLower, s): look for the first rune
that the mapping changes, or the first invalid byte.  `done` holds the bytes
already passed (in order), `s` the bytes to come.  When there is none the
string is returned as it is; otherwise the bytes passed so far are kept, the
mapped rune is encoded and the second loop takes over. -/
def mapFirst (caseTable : Nat → Nat) : Nat → GoString → GoString → GoString
  | 0, done, s => done ++ s
  | fuel + 1, done, s =>
    match s with
    | [] => done
    | _ :: _ =>
      let d := DecodeRuneInString s
      let c := d.1
      let r := unicodeToLower caseTable c
      if r = c ∧ c ≠ RuneError then
        mapFirst caseTable fuel (done ++ s.take d.2) (s.drop d.2)
      else if c = RuneError ∧ d.2 ≠ 1 ∧ r = c then
        mapFirst caseTable fuel (done ++ s.take d.2) (s.drop d.2)
      else
        let width := if c = RuneError then d.2 else RuneLen c
        done ++ EncodeRune r ++ mapRest caseTable s.length (s.drop width)

/-- The function strings.ToLower: an ASCII-only string is lower-cased byte by
byte; any other string goes through strings.Map(unicode.ToLower, s). -/
def ToLower (caseTable : Nat → Nat) (s : GoString) : GoString :=
  if s.all (fun c => decide (c < 0x80)) = true then
    s.map (fun c => if 0x41 ≤ c ∧ c ≤ 0x5A then c + 0x20 else c)
  else mapFirst caseTable s.length [] s

/-- The function strings.HasPrefix. -/
def HasPrefix (s pre : GoString) : Bool :=
  decide (pre.length ≤ s.length) && (s.take pre.length == pre)

/-- The function strings.HasSuffix. -/
def HasSuffix (s suf : GoString) : Bool :=
  decide (suf.length ≤ s.length) && (s.drop (s.length - suf.length) == suf)

/-- The function strings.TrimSuffix. -/
def TrimSuffix (s suf : GoString) : GoString :=
  if HasSuffix s suf = true then s.take (s.length - suf.length) else s

/-- The function strings.Split for a one-byte separator: the pieces of `s`
between the separator bytes; always at least one piece. -/
def Split (s : GoString) (sep : Nat) : List GoString :=
  match s with
  | [] => [[]]
  | c :: t =>
    if c = sep then [] :: Split t sep
    else
      match Split t sep with
      | [] => [[c]]
      | l :: ls => (c :: l) :: ls

/-- The function strings.Join. -/
def Join (elems : List GoString) (sep : GoString) : GoString :=
  match elems with
  | [] => []
  | [a] => a
  | a :: b :: rest => a ++ sep ++ Join (b :: rest) sep

/-- The replacement loop of strings.ReplaceAll for a non-empty `old`, read left
to right: at a position where `old` starts, `new` is written and the bytes of
`old` are skipped (`skip` counts those still to pass); any other byte is
copied. -/
def replaceFrom (old new : GoString) : GoString → Nat → GoString
  | [], _ => []
  | _ :: t, skip + 1 => replaceFrom old new t skip
  | b :: t, 0 =>
    if HasPrefix (b :: t) old = true then new ++ replaceFrom old new t (old.length - 1)
    else b :: replaceFrom old new t 0

/-- The replacement loop of strings.ReplaceAll for an empty `old`: `new` is
written after every UTF-8 sequence. -/
def insertAfterRunes (new : GoString) : Nat → GoString → GoString
  | 0, s => s
  | fuel + 1, s =>
    match s with
    | [] => []
    | _ :: _ =>
      let w := (DecodeRuneInString s).2
      s.take w ++ new ++ insertAfterRunes new fuel (s.drop w)

/-- The function strings.ReplaceAll: all non-overlapping instances of `old`,
taken from the left, are replaced by `new`; an empty `old` matches at the
beginning of the string and after each UTF-8 sequence. -/
def ReplaceAll (s old new : GoString) : GoString :=
  if old = new then s
  else if old = [] then new ++ insertAfterRunes new s.length s
  else replaceFrom old new s 0

/-! ## cmd/sqlrunner/cmd.go -/

/-- The result of running a Go function that returns `(value, error)`: a value,
an error built by fmt.Errorf (its message), or a run-time panic raised by a
slice expression whose bounds are out of range. -/
inductive Outcome (α : Type) where
  | ok (value : α)
  | error (message : GoString)
  | panic
  deriving DecidableEq, Repr

/-- The struct SQLSection. -/
structure SQLSection where
  Table : GoString
  SQL : GoString
  deriving DecidableEq, Repr

/-- The string slice `s[n:]`, which panics (here: `none`) when `n > len(s)`. -/
def sliceFrom (s : GoString) (n : Nat) : Option GoString :=
  if n ≤ s.length then some (s.drop n) else none

/-- The slice `lines[start:end]`, which panics (here: `none`) unless
`start ≤ end ≤ len(lines)`. -/
def sliceLines (lines : List GoString) (start stop : Nat) : Option (List GoString) :=
  if start ≤ stop ∧ stop ≤ lines.length then some ((lines.take stop).drop start) else none

/-- The marker `"--create:"`. -/
def createMarker : GoString := bytes "--create:"

/-- The marker `"--drop:"`. -/
def dropMarker : GoString := bytes "--drop:"

/-- The line separator `"\n"` as a byte. -/
def newline : Nat := 0x0A

/-- The local variables `start`, `end` and `table` of extractSQLSection. -/
structure ScanState where
  start : Nat
  stop : Nat
  table : GoString
  deriving DecidableEq, Repr

/-- The values of the loop variables before the loop: `start` is 0, `end` is
`len(lines)` and `table` is empty. -/
def initialState (lines : List GoString) : ScanState :=
  { start := 0, stop := lines.length, table := [] }

/-- The copy `l` of a line that the loop of extractSQLSection inspects:
`strings.TrimSpace(strings.ToLower(line))`. -/
def folded (caseTable : Nat → Nat) (line : GoString) : GoString :=
  TrimSpace (ToLower caseTable line)

/-- The loop `for i, line := range lines` of extractSQLSection, from line `i`
on, with the loop variables in `st`.  A line whose folded copy starts with
`"--drop:"` ends the loop (`break`). -/
def scanLines (caseTable : Nat → Nat) (isCreate : Bool) :
    List GoString → Nat → ScanState → Outcome ScanState
  | [], _, st => Outcome.ok st
  | line :: rest, i, st =>
    let l := folded caseTable line
    let afterCreate : Option ScanState :=
      if (HasPrefix l createMarker && isCreate) = true then
        match sliceFrom line createMarker.length with
        | none => none
        | some t => some { st with table := TrimSpace t, start := i + 1 }
      else some st
    match afterCreate with
    | none => Outcome.panic
    | some st1 =>
      if HasPrefix l dropMarker = true then
        if isCreate = true then Outcome.ok { st1 with stop := i }
        else
          match sliceFrom line dropMarker.length with
          | none => Outcome.panic
          | some t => Outcome.ok { st1 with table := TrimSpace t, start := i + 1 }
      else scanLines caseTable isCreate rest (i + 1) st1

/-- The function extractSQLSection. -/
def extractSQLSection (caseTable : Nat → Nat) (sql : GoString) (isCreate : Bool) :
    Outcome SQLSection :=
  let lines := Split sql newline
  match scanLines caseTable isCreate lines 0 (initialState lines) with
  | Outcome.panic => Outcome.panic
  | Outcome.error m => Outcome.error m
  | Outcome.ok st =>
    if st.table = [] then Outcome.error (bytes "table name not found in SQL header")
    else
      match sliceLines lines st.start st.stop with
      | none => Outcome.panic
      | some body =>
        let sqlBody := Join body [newline]
        if TrimSpace sqlBody = [] then
          Outcome.error (bytes "empty SQL body for table " ++ st.table)
        else Outcome.ok { Table := st.table, SQL := sqlBody }

/-- The function applySchemaExact. -/
def applySchemaExact (sql schema table : GoString) (operation : Bool) : GoString :=
  let qualified := schema ++ bytes "." ++ table
  let sql := ReplaceAll sql table qualified
  if operation = false then ReplaceAll sql (bytes ";") [] ++ bytes " CASCADE;"
  else sql

/-- The statement that SqlRunner hands to `db.ExecContext` for the text of one
file: the section of the requested operation, schema-qualified; an error of
extractSQLSection is fatal. -/
def statementToRun (caseTable : Nat → Nat) (schema sqlBytes : GoString) (runCreate : Bool) :
    Outcome GoString :=
  match extractSQLSection caseTable sqlBytes runCreate with
  | Outcome.panic => Outcome.panic
  | Outcome.error m => Outcome.error m
  | Outcome.ok sqlToRun =>
    Outcome.ok (applySchemaExact sqlToRun.SQL schema sqlToRun.Table runCreate)

/-- The skeleton that generateSQLFile formats with
fmt.Sprintf for the base name `base`; the continuation lines of the raw
string literal start with two tabs. -/
def skeleton (base : GoString) : GoString :=
  bytes "--create:" ++ base ++ bytes "\n\t\t--replace table_name with your table\n\t\t--write your create query\n\n\t\t--drop:" ++ base ++ bytes "\n\t\t--replace table_name with your table\n\t\t--write your drop query\n\t\t"

/-- The pure part of generateSQLFile: the file name is given the suffix `.sql`
when it lacks it, the base name is the file name without that suffix, and the
content written is the skeleton for the base name. -/
def generateSQLFile (input : GoString) : GoString :=
  let filename := if HasSuffix input (bytes ".sql") = true then input else input ++ bytes ".sql"
  let base := TrimSuffix filename (bytes ".sql")
  skeleton base

/-- A line is a CREATE marker line when its folded copy starts with
`"--create:"`: the test of the first `if` of the loop. -/
def isCreateMarker (caseTable : Nat → Nat) (line : GoString) : Bool :=
  HasPrefix (folded caseTable line) createMarker

/-- A line is a DROP marker line when its folded copy starts with `"--drop:"`:
the test of the second `if` of the loop. -/
def isDropMarker (caseTable : Nat → Nat) (line : GoString) : Bool :=
  HasPrefix (folded caseTable line) dropMarker

/-- A valid migration file: its lines are `pre`, one CREATE marker line `c`, the
lines `mid`, one DROP marker line `d` and the lines `post`; no other line is a
marker line; the table name that follows each marker is not empty; and the body
after each marker is not blank. -/
structure ValidFile (caseTable : Nat → Nat) (text : GoString) (pre : List GoString)
    (c : GoString) (mid : List GoString) (d : GoString) (post : List GoString) : Prop where
  lines : Split text newline = pre ++ c :: mid ++ d :: post
  createLine : isCreateMarker caseTable c = true
  dropLine : isDropMarker caseTable d = true
  noOther : ∀ l ∈ pre ++ mid ++ post,
    isCreateMarker caseTable l = false ∧ isDropMarker caseTable l = false
  createName : TrimSpace (c.drop createMarker.length) ≠ []
  dropName : TrimSpace (d.drop dropMarker.length) ≠ []
  createBody : TrimSpace (Join mid [newline]) ≠ []
  dropBody : TrimSpace (Join post [newline]) ≠ []

/-- A string that consists only of white space: the UTF-8 encoding of a
sequence of runes each of which is a space for unicode.IsSpace. -/
def WhiteSpaceOnly (s : GoString) : Prop :=
  ∃ rs : List Nat, (∀ r ∈ rs, IsSpace r = true) ∧ s = rs.flatMap EncodeRune

/-- An SQL comment line: a line that, leading white space apart, starts with
`--`. -/
def isCommentLine (line : GoString) : Bool :=
  HasPrefix (TrimSpace line) (bytes "--")

/-- The section that Create reads: the lines of the text are `pre`, a CREATE
marker line `c`, the lines `body` and the lines `rest`; no line of `pre` is a
DROP marker line; no line of `body` is a marker line; `rest` is empty (the body
runs to the end of the file) or starts with a DROP marker line; and the table
name taken from `c`, the line without its first 9 bytes, trimmed, is not
empty. -/
structure CreateSection (caseTable : Nat → Nat) (text : GoString) (pre : List GoString)
    (c : GoString) (body rest : List GoString) : Prop where
  lines : Split text newline = pre ++ c :: body ++ rest
  noDropBefore : ∀ l ∈ pre, isDropMarker caseTable l = false
  createLine : isCreateMarker caseTable c = true
  bodyLines : ∀ l ∈ body,
    isCreateMarker caseTable l = false ∧ isDropMarker caseTable l = false
  ends : rest = [] ∨ ∃ d rest1, rest = d :: rest1 ∧ isDropMarker caseTable d = true
  name : TrimSpace (c.drop createMarker.length) ≠ []

/-- The section that Drop reads: the lines of the text are `pre`, a DROP marker
line `d` and the lines `body`; no line of `pre` is a DROP marker line, so `d` is
the first one; and the table name taken from `d`, the line without its first 7
bytes, trimmed, is not empty. -/
structure DropSection (caseTable : Nat → Nat) (text : GoString) (pre : List GoString)
    (d : GoString) (body : List GoString) : Prop where
  lines : Split text newline = pre ++ d :: body
  noDropBefore : ∀ l ∈ pre, isDropMarker caseTable l = false
  dropLine : isDropMarker caseTable d = true
  name : TrimSpace (d.drop dropMarker.length) ≠ []

/-- The number of ASCII bytes of a string. -/
def asciiCount (s : GoString) : Nat := s.countP (fun c => decide (c < 0x80))

/-- A case table that leaves every rune as it is; an ASCII-only text never
consults the table. -/
def noCase : Nat → Nat := fun r => r

/-- A migration file with a comment line before the CREATE marker. -/
def usersFile : GoString :=
  bytes "-- users\n--create:users\nCREATE TABLE users (id int);\n\n--drop:users\nDROP TABLE users;\n"

/-- A file with two CREATE marker lines before its two DROP marker lines. -/
def duplicatesFile : GoString :=
  bytes "--create:a\nX\n--create:b\nY\n--drop:a\nZ\n--drop:b\nW"

/-- A migration file whose CREATE section holds only an indented empty line
and a comment line. -/
def commentOnlyFile : GoString :=
  bytes "--create:t\n  \n-- todo\n--drop:t\nDROP TABLE t;"

/-- A migration file whose sections hold only white space: blanks, a tab, and
an ideographic space (U+3000). -/
def blankBodyFile : GoString :=
  bytes "--create:t\n  \n\t\n--drop:t\n \u3000\n"

/-- A migration file whose two sections hold one comment line each. -/
def todoFile : GoString :=
  bytes "--create:t\n-- todo\n--drop:t\n  -- later\n"

/-- The migration file of the end-to-end scenario. -/
def widgetsFile : GoString :=
  bytes "--create:widgets\nCREATE TABLE widgets (id int);\n--drop:widgets\nDROP TABLE widgets;"

/-! ## The decoder and the encoder -/

theorem first_cases (b : Nat) :
    (b < 0x80 ∧ first b = 0xF0) ∨ first b = 0xF1
    ∨ (0xC2 ≤ b ∧ b < 0xE0 ∧ first b = 0x02)
    ∨ (b = 0xE0 ∧ first b = 0x13)
    ∨ (0xE1 ≤ b ∧ b < 0xF0 ∧ b ≠ 0xED ∧ first b = 0x03)
    ∨ (b = 0xED ∧ first b = 0x23)
    ∨ (b = 0xF0 ∧ first b = 0x34)
    ∨ (0xF1 ≤ b ∧ b < 0xF4 ∧ first b = 0x04)
    ∨ (b = 0xF4 ∧ first b = 0x44) := by
  generalize hx : first b = x
  unfold first at hx
  split_ifs at hx <;> subst hx <;> simp <;> omega

/-- What the decoder returns on a non-empty string: an ASCII byte, the error
rune with width 1, or a rune of the range that belongs to its width. -/
theorem decode_cases (s0 : Nat) (t : GoString) :
    (DecodeRuneInString (s0 :: t) = (s0, 1) ∧ s0 < 0x80)
    ∨ DecodeRuneInString (s0 :: t) = (RuneError, 1)
    ∨ ((DecodeRuneInString (s0 :: t)).2 = 2 ∧ 0x80 ≤ (DecodeRuneInString (s0 :: t)).1
        ∧ (DecodeRuneInString (s0 :: t)).1 ≤ 0x7FF)
    ∨ ((DecodeRuneInString (s0 :: t)).2 = 3 ∧ 0x800 ≤ (DecodeRuneInString (s0 :: t)).1
        ∧ (DecodeRuneInString (s0 :: t)).1 ≤ 0xFFFF
        ∧ ¬ (0xD800 ≤ (DecodeRuneInString (s0 :: t)).1 ∧ (DecodeRuneInString (s0 :: t)).1 ≤ 0xDFFF))
    ∨ ((DecodeRuneInString (s0 :: t)).2 = 4 ∧ 0x10000 ≤ (DecodeRuneInString (s0 :: t)).1
        ∧ (DecodeRuneInString (s0 :: t)).1 ≤ 0x10FFFF) := by
  generalize hd : DecodeRuneInString (s0 :: t) = d
  rcases first_cases s0 with h | h | h | h | h | h | h | h | h
  · left
    simp [DecodeRuneInString, h.2] at hd
    exact ⟨hd.symm, h.1⟩
  · right; left
    simp [DecodeRuneInString, h, RuneError] at hd
    simp [← hd, RuneError]
  all_goals
    simp only [DecodeRuneInString, h.2, acceptRanges] at hd
    norm_num at hd
    split_ifs at hd <;> subst hd <;> simp [RuneError] <;> omega

theorem decode_width_pos (s0 : Nat) (t : GoString) :
    1 ≤ (DecodeRuneInString (s0 :: t)).2 := by
  rcases decode_cases s0 t with h | h | h | h | h
  · rw [h.1]
  · rw [h]
  · omega
  · omega
  · omega

/-- A decoded rune other than the error rune is encoded in as many bytes as it
was decoded from. -/
theorem decode_runeLen (s0 : Nat) (t : GoString)
    (h : (DecodeRuneInString (s0 :: t)).1 ≠ RuneError) :
    RuneLen (DecodeRuneInString (s0 :: t)).1 = (DecodeRuneInString (s0 :: t)).2 := by
  have hc := decode_cases s0 t
  generalize DecodeRuneInString (s0 :: t) = d at hc h
  obtain ⟨c, w⟩ := d
  simp only [Prod.mk.injEq] at hc h ⊢
  unfold RuneLen
  rcases hc with hc | hc | hc | hc | hc
  · split_ifs <;> omega
  · exact absurd hc.1 h
  all_goals
    split_ifs <;> omega

theorem asciiCount_le_length (s : GoString) : asciiCount s ≤ s.length :=
  List.countP_le_length _

theorem asciiCount_append (s t : GoString) :
    asciiCount (s ++ t) = asciiCount s + asciiCount t := by
  simp [asciiCount, List.countP_append]

/-- The encoding of a rune holds at most one ASCII byte. -/
theorem asciiCount_encode (r : Nat) : asciiCount (EncodeRune r) ≤ 1 := by
  by_cases h : r ≤ 0x7F
  · have : EncodeRune r = [r] := by simp [EncodeRune, h]
    rw [this]
    exact asciiCount_le_length [r]
  · have h0 : asciiCount (EncodeRune r) = 0 := by
      unfold asciiCount
      rw [List.countP_eq_zero]
      intro b hb
      unfold EncodeRune at hb
      split_ifs at hb <;> simp at hb <;> simp <;> omega
    omega

theorem asciiCount_mapRest (caseTable : Nat → Nat) (fuel : Nat) (s : GoString) :
    asciiCount (mapRest caseTable fuel s) ≤ s.length := by
  induction fuel generalizing s with
  | zero => simp [mapRest, asciiCount]
  | succ n ih =>
    cases s with
    | nil => simp [mapRest, asciiCount]
    | cons s0 t =>
      simp only [mapRest, asciiCount_append]
      have h1 := asciiCount_encode (unicodeToLower caseTable (DecodeRuneInString (s0 :: t)).1)
      have h2 := ih ((s0 :: t).drop (DecodeRuneInString (s0 :: t)).2)
      have h3 := decode_width_pos s0 t
      simp only [List.length_drop, List.length_cons] at h2 ⊢
      omega

theorem asciiCount_mapFirst (caseTable : Nat → Nat) (fuel : Nat) (done s : GoString) :
    asciiCount (mapFirst caseTable fuel done s) ≤ done.length + s.length := by
  induction fuel generalizing done s with
  | zero =>
    simp only [mapFirst]
    have := asciiCount_le_length (done ++ s)
    simpa using this
  | succ n ih =>
    cases s with
    | nil =>
      simp only [mapFirst]
      have := asciiCount_le_length done
      simp only [List.length_nil]
      omega
    | cons s0 t =>
      have hlen : ∀ w : Nat,
          (done ++ (s0 :: t).take w).length + ((s0 :: t).drop w).length
            = done.length + (s0 :: t).length := by
        intro w
        simp only [List.length_append, List.length_take, List.length_drop]
        omega
      simp only [mapFirst]
      split_ifs with h1 h2 h3
      · have := ih (done ++ (s0 :: t).take (DecodeRuneInString (s0 :: t)).2)
          ((s0 :: t).drop (DecodeRuneInString (s0 :: t)).2)
        rw [hlen] at this
        exact this
      · have := ih (done ++ (s0 :: t).take (DecodeRuneInString (s0 :: t)).2)
          ((s0 :: t).drop (DecodeRuneInString (s0 :: t)).2)
        rw [hlen] at this
        exact this
      · rw [asciiCount_append, asciiCount_append]
        have e1 := asciiCount_encode (unicodeToLower caseTable (DecodeRuneInString (s0 :: t)).1)
        have e2 := asciiCount_mapRest caseTable (s0 :: t).length
          ((s0 :: t).drop (DecodeRuneInString (s0 :: t)).2)
        have e3 := decode_width_pos s0 t
        have e4 := asciiCount_le_length done
        simp only [List.length_drop, List.length_cons] at e2 ⊢
        omega
      · rw [asciiCount_append, asciiCount_append]
        have e1 := asciiCount_encode (unicodeToLower caseTable (DecodeRuneInString (s0 :: t)).1)
        have e2 := asciiCount_mapRest caseTable (s0 :: t).length
          ((s0 :: t).drop (RuneLen (DecodeRuneInString (s0 :: t)).1))
        have e3 := decode_width_pos s0 t
        have e5 := decode_runeLen s0 t h3
        have e4 := asciiCount_le_length done
        simp only [List.length_drop, List.length_cons] at e2 ⊢
        omega

/-- Lower-casing never yields more ASCII bytes than the string has bytes: every
rune read takes at least one byte and writes at most one ASCII byte. -/
theorem asciiCount_ToLower (caseTable : Nat → Nat) (s : GoString) :
    asciiCount (ToLower caseTable s) ≤ s.length := by
  unfold ToLower
  split_ifs
  · have := asciiCount_le_length (s.map (fun c => if 0x41 ≤ c ∧ c ≤ 0x5A then c + 0x20 else c))
    simpa using this
  · have := asciiCount_mapFirst caseTable s.length [] s
    simpa using this

/-! ## Trimming keeps a contiguous part of the string -/

theorem trimLeftSpace_suffix (fuel : Nat) (s : GoString) :
    trimLeftSpace fuel s <:+ s := by
  induction fuel generalizing s with
  | zero => exact List.suffix_refl s
  | succ n ih =>
    cases s with
    | nil => exact List.suffix_refl []
    | cons s0 t =>
      simp only [trimLeftSpace]
      split_ifs
      · exact (ih _).trans (List.drop_suffix _ _)
      · exact List.suffix_refl _

theorem trimRightSpace_initial (s : GoString) : trimRightSpace s <+: s := by
  unfold trimRightSpace
  split
  · exact List.nil_prefix
  · split_ifs
    · exact List.take_prefix _ _
    · exact List.take_prefix _ _

theorem trimSpaceStop_initial (r : GoString) : trimSpaceStop r <+: r.reverse := by
  induction r with
  | nil => exact List.prefix_refl _
  | cons c r ih =>
    simp only [trimSpaceStop]
    split_ifs
    · exact trimRightSpace_initial _
    · rw [List.reverse_cons]
      exact ih.trans (List.prefix_append _ _)
    · exact List.prefix_refl _

/-- The trimmed string is a contiguous part of the string. -/
theorem TrimSpace_contiguous (s : GoString) : TrimSpace s <:+: s := by
  induction s with
  | nil => exact List.infix_refl _
  | cons c s ih =>
    simp only [TrimSpace]
    split_ifs
    · exact (trimRightSpace_initial _).isInfix.trans (trimLeftSpace_suffix _ _).isInfix
    · exact ih.trans (List.suffix_cons c s).isInfix
    · have := trimSpaceStop_initial (c :: s).reverse
      rw [List.reverse_reverse] at this
      exact this.isInfix

theorem HasPrefix_iff (s pre : GoString) : HasPrefix s pre = true ↔ pre <+: s := by
  unfold HasPrefix
  simp only [Bool.and_eq_true, decide_eq_true_eq, beq_iff_eq]
  constructor
  · rintro ⟨_, h⟩
    rw [← h]
    exact List.take_prefix _ _
  · intro h
    exact ⟨h.length_le, List.prefix_iff_eq_take.mp h |>.symm⟩

theorem asciiCount_mono {s t : GoString} (h : s <:+: t) : asciiCount s ≤ asciiCount t :=
  h.sublist.countP_le _

/-- A string whose folded copy starts with `n` ASCII bytes has at least `n`
bytes. -/
theorem length_of_folded_start (caseTable : Nat → Nat) (line marker : GoString)
    (h : HasPrefix (folded caseTable line) marker = true) :
    asciiCount marker ≤ line.length := by
  have h1 : marker <:+: ToLower caseTable line :=
    ((HasPrefix_iff _ _).mp h).isInfix.trans (TrimSpace_contiguous _)
  exact (asciiCount_mono h1).trans (asciiCount_ToLower caseTable line)

theorem createMarker_eq : createMarker = [45, 45, 99, 114, 101, 97, 116, 101, 58] := by
  decide

theorem dropMarker_eq : dropMarker = [45, 45, 100, 114, 111, 112, 58] := by
  decide

/-- A CREATE marker line has at least the 9 bytes that `line[len("--create:"):]`
slices off. -/
theorem createMarker_length_le (caseTable : Nat → Nat) (line : GoString)
    (h : isCreateMarker caseTable line = true) : createMarker.length ≤ line.length := by
  have := length_of_folded_start caseTable line createMarker h
  rw [createMarker_eq] at this ⊢
  simpa [asciiCount] using this

/-- A DROP marker line has at least the 7 bytes that `line[len("--drop:"):]`
slices off. -/
theorem dropMarker_length_le (caseTable : Nat → Nat) (line : GoString)
    (h : isDropMarker caseTable line = true) : dropMarker.length ≤ line.length := by
  have := length_of_folded_start caseTable line dropMarker h
  rw [dropMarker_eq] at this ⊢
  simpa [asciiCount] using this

/-- No line is both a CREATE and a DROP marker line. -/
theorem not_both_markers (caseTable : Nat → Nat) (line : GoString)
    (hc : isCreateMarker caseTable line = true) : isDropMarker caseTable line = false := by
  unfold isCreateMarker at hc
  unfold isDropMarker
  rw [HasPrefix_iff] at hc
  obtain ⟨r, hr⟩ := hc
  rw [← hr, createMarker_eq, dropMarker_eq]
  simp [HasPrefix]

/-! ## One iteration of the loop -/

/-- A line that is no DROP marker line, and no CREATE marker line when the
operation is Create, leaves the loop variables as they are. -/
theorem scanLines_plain (caseTable : Nat → Nat) (isCreate : Bool) (line : GoString)
    (rest : List GoString) (i : Nat) (st : ScanState)
    (hc : (isCreateMarker caseTable line && isCreate) = false)
    (hd : isDropMarker caseTable line = false) :
    scanLines caseTable isCreate (line :: rest) i st
      = scanLines caseTable isCreate rest (i + 1) st := by
  unfold isCreateMarker at hc
  unfold isDropMarker at hd
  simp [scanLines, hc, hd]

/-- A CREATE marker line under Create sets `table` and `start`, and the loop
goes on. -/
theorem scanLines_create (caseTable : Nat → Nat) (line : GoString)
    (rest : List GoString) (i : Nat) (st : ScanState)
    (hc : isCreateMarker caseTable line = true) :
    scanLines caseTable true (line :: rest) i st
      = scanLines caseTable true rest (i + 1)
          { st with table := TrimSpace (line.drop createMarker.length), start := i + 1 } := by
  have hd := not_both_markers caseTable line hc
  have hl := createMarker_length_le caseTable line hc
  unfold isCreateMarker at hc
  unfold isDropMarker at hd
  simp [scanLines, hc, hd, sliceFrom, hl]

/-- A DROP marker line under Create sets `end` and leaves the loop. -/
theorem scanLines_drop_create (caseTable : Nat → Nat) (line : GoString)
    (rest : List GoString) (i : Nat) (st : ScanState)
    (hd : isDropMarker caseTable line = true) :
    scanLines caseTable true (line :: rest) i st = Outcome.ok { st with stop := i } := by
  have hc : isCreateMarker caseTable line = false := by
    cases h : isCreateMarker caseTable line with
    | false => rfl
    | true => rw [not_both_markers caseTable line h] at hd; exact absurd hd (by decide)
  unfold isCreateMarker at hc
  unfold isDropMarker at hd
  simp [scanLines, hc, hd]

/-- A DROP marker line under Drop sets `table` and `start` and leaves the
loop. -/
theorem scanLines_drop_drop (caseTable : Nat → Nat) (line : GoString)
    (rest : List GoString) (i : Nat) (st : ScanState)
    (hd : isDropMarker caseTable line = true) :
    scanLines caseTable false (line :: rest) i st
      = Outcome.ok { st with table := TrimSpace (line.drop dropMarker.length), start := i + 1 } := by
  have hl := dropMarker_length_le caseTable line hd
  unfold isDropMarker at hd
  simp [scanLines, hd, sliceFrom, hl]

/-- The loop over lines none of which is a DROP marker line: it reaches the
line after them, `end` is as before, `start` is at most the index reached, and
the variables are untouched when the operation is Drop or no line is a CREATE
marker line. -/
theorem scanLines_append (caseTable : Nat → Nat) (isCreate : Bool) (pre : List GoString)
    (hd : ∀ l ∈ pre, isDropMarker caseTable l = false) (i : Nat) (st : ScanState) :
    ∃ st1 : ScanState,
      (∀ rest, scanLines caseTable isCreate (pre ++ rest) i st
        = scanLines caseTable isCreate rest (i + pre.length) st1)
      ∧ st1.stop = st.stop
      ∧ (st.start ≤ i → st1.start ≤ i + pre.length)
      ∧ ((isCreate = false ∨ ∀ l ∈ pre, isCreateMarker caseTable l = false) → st1 = st) := by
  induction pre generalizing i st with
  | nil => exact ⟨st, fun rest => by simp, rfl, fun h => by simpa using h, fun _ => rfl⟩
  | cons line pre ih =>
    have hd1 : isDropMarker caseTable line = false := hd line (List.mem_cons_self _ _)
    have hd2 : ∀ l ∈ pre, isDropMarker caseTable l = false :=
      fun l hl => hd l (List.mem_cons_of_mem _ hl)
    by_cases hc : (isCreateMarker caseTable line && isCreate) = true
    · rw [Bool.and_eq_true] at hc
      obtain ⟨hc1, hc2⟩ := hc
      subst hc2
      obtain ⟨st1, h1, h2, h3, h4⟩ := ih hd2 (i + 1)
        { st with table := TrimSpace (line.drop createMarker.length), start := i + 1 }
      refine ⟨st1, ?_, h2, ?_, ?_⟩
      · intro rest
        rw [List.cons_append, scanLines_create caseTable line _ i st hc1, h1 rest]
        simp only [List.length_cons]
        congr 1
        omega
      · intro _
        have := h3 (le_refl _)
        simp only [List.length_cons]
        omega
      · intro h
        rcases h with h | h
        · exact absurd h (by decide)
        · rw [h line (List.mem_cons_self _ _)] at hc1
          exact absurd hc1 (by decide)
    · rw [Bool.not_eq_true] at hc
      obtain ⟨st1, h1, h2, h3, h4⟩ := ih hd2 (i + 1) st
      refine ⟨st1, ?_, h2, ?_, ?_⟩
      · intro rest
        rw [List.cons_append, scanLines_plain caseTable isCreate line _ i st hc hd1, h1 rest]
        simp only [List.length_cons]
        congr 1
        omega
      · intro h
        have := h3 (by omega)
        simp only [List.length_cons]
        omega
      · intro h
        apply h4
        rcases h with h | h
        · exact Or.inl h
        · exact Or.inr (fun l hl => h l (List.mem_cons_of_mem _ hl))

/-! ## From the loop to the result -/

/-- The result of extractSQLSection once the loop has ended with a table name
and bounds that are in range. -/
theorem extract_of_scan (caseTable : Nat → Nat) (sql : GoString) (isCreate : Bool)
    (st : ScanState)
    (hscan : scanLines caseTable isCreate (Split sql newline) 0
      (initialState (Split sql newline)) = Outcome.ok st)
    (htable : st.table ≠ [])
    (hb : st.start ≤ st.stop ∧ st.stop ≤ (Split sql newline).length) :
    extractSQLSection caseTable sql isCreate
      = if TrimSpace (Join (((Split sql newline).take st.stop).drop st.start) [newline]) = []
        then Outcome.error (bytes "empty SQL body for table " ++ st.table)
        else Outcome.ok
          { Table := st.table
            SQL := Join (((Split sql newline).take st.stop).drop st.start) [newline] } := by
  simp only [extractSQLSection, hscan, htable, sliceLines, hb, if_false, and_self, if_true]

/-- The result of extractSQLSection once the loop has ended without a table
name. -/
theorem extract_of_scan_noTable (caseTable : Nat → Nat) (sql : GoString) (isCreate : Bool)
    (st : ScanState)
    (hscan : scanLines caseTable isCreate (Split sql newline) 0
      (initialState (Split sql newline)) = Outcome.ok st)
    (htable : st.table = []) :
    extractSQLSection caseTable sql isCreate
      = Outcome.error (bytes "table name not found in SQL header") := by
  simp only [extractSQLSection, hscan, htable, if_true]

/-- The loop always ends normally, with `start ≤ end ≤ len(lines)`. -/
theorem scanLines_bounds (caseTable : Nat → Nat) (isCreate : Bool) (lines : List GoString)
    (i : Nat) (st : ScanState) (h1 : st.start ≤ i) (h2 : st.stop = i + lines.length) :
    ∃ st1, scanLines caseTable isCreate lines i st = Outcome.ok st1
      ∧ st1.start ≤ st1.stop ∧ st1.stop ≤ i + lines.length := by
  induction lines generalizing i st with
  | nil => exact ⟨st, rfl, by simpa using (by omega : st.start ≤ st.stop), by omega⟩
  | cons line rest ih =>
    simp only [List.length_cons] at h2 ⊢
    cases hd : isDropMarker caseTable line with
    | true =>
      cases isCreate with
      | true =>
        exact ⟨_, scanLines_drop_create caseTable line rest i st hd, by simpa using h1,
          by simp⟩
      | false =>
        refine ⟨_, scanLines_drop_drop caseTable line rest i st hd, ?_, ?_⟩
        · simp only []
          omega
        · simp only []
          omega
    | false =>
      by_cases hc : (isCreateMarker caseTable line && isCreate) = true
      · rw [Bool.and_eq_true] at hc
        obtain ⟨hc1, hc2⟩ := hc
        subst hc2
        obtain ⟨st1, e1, e2, e3⟩ := ih (i + 1)
          { st with table := TrimSpace (line.drop createMarker.length), start := i + 1 }
          (le_refl _) (by simp only []; omega)
        exact ⟨st1, by rw [scanLines_create caseTable line rest i st hc1, e1], e2, by omega⟩
      · rw [Bool.not_eq_true] at hc
        obtain ⟨st1, e1, e2, e3⟩ := ih (i + 1) st (by omega) (by omega)
        exact ⟨st1, by rw [scanLines_plain caseTable isCreate line rest i st hc hd, e1], e2,
          by omega⟩

/-- Under Create, lines without a CREATE marker line leave `table` empty. -/
theorem scanLines_noCreate (caseTable : Nat → Nat) (lines : List GoString)
    (hc : ∀ l ∈ lines, isCreateMarker caseTable l = false) (i : Nat) (st : ScanState) :
    ∃ st1, scanLines caseTable true lines i st = Outcome.ok st1 ∧ st1.table = st.table := by
  induction lines generalizing i st with
  | nil => exact ⟨st, rfl, rfl⟩
  | cons line rest ih =>
    have hc1 := hc line (List.mem_cons_self _ _)
    cases hd : isDropMarker caseTable line with
    | true => exact ⟨_, scanLines_drop_create caseTable line rest i st hd, rfl⟩
    | false =>
      obtain ⟨st1, e1, e2⟩ := ih (fun l hl => hc l (List.mem_cons_of_mem _ hl)) (i + 1) st
      exact ⟨st1, by rw [scanLines_plain caseTable true line rest i st (by simp [hc1]) hd, e1], e2⟩

theorem take_drop_middle (pre mid post : List GoString) :
    ((pre ++ mid ++ post).take (pre.length + mid.length)).drop pre.length = mid := by
  rw [← List.length_append, List.take_left' rfl, List.drop_left' rfl]

/-! ## Sections of a well-formed file -/

/-- The loop under Create on lines `pre ++ c :: mid ++ rest`, where `pre` has no
DROP marker line, `c` is a CREATE marker line, `mid` has no marker line, and
`rest` is empty or starts with a DROP marker line: `table` and `start` come from
`c`, and `end` is the index of the first line of `rest`. -/
theorem scanLines_create_section (caseTable : Nat → Nat) (pre mid rest : List GoString)
    (c : GoString)
    (hpre : ∀ l ∈ pre, isDropMarker caseTable l = false)
    (hc : isCreateMarker caseTable c = true)
    (hmid : ∀ l ∈ mid, isCreateMarker caseTable l = false ∧ isDropMarker caseTable l = false)
    (hrest : rest = [] ∨ ∃ d rest1, rest = d :: rest1 ∧ isDropMarker caseTable d = true) :
    scanLines caseTable true (pre ++ c :: mid ++ rest) 0
        (initialState (pre ++ c :: mid ++ rest))
      = Outcome.ok
          { start := pre.length + 1
            stop := pre.length + 1 + mid.length
            table := TrimSpace (c.drop createMarker.length) } := by
  have hstop : (initialState (pre ++ c :: mid ++ rest)).stop
      = pre.length + 1 + mid.length + rest.length := by
    simp only [initialState, List.length_append, List.length_cons]
    omega
  generalize initialState (pre ++ c :: mid ++ rest) = st0 at hstop
  obtain ⟨st1, h1, h2, _, _⟩ := scanLines_append caseTable true pre hpre 0 st0
  obtain ⟨st2, k1, k2, _, k4⟩ :=
    scanLines_append caseTable true mid (fun l hl => (hmid l hl).2) (0 + pre.length + 1)
      { st1 with table := TrimSpace (c.drop createMarker.length), start := 0 + pre.length + 1 }
  have k5 := k4 (Or.inr (fun l hl => (hmid l hl).1))
  subst k5
  rw [List.append_assoc, h1, List.cons_append, scanLines_create caseTable c _ _ st1 hc, k1]
  rcases hrest with hr | ⟨d, rest1, hr, hd⟩
  · subst hr
    simp only [scanLines, Outcome.ok.injEq, ScanState.mk.injEq, List.length_nil] at hstop ⊢
    exact ⟨by omega, by omega, trivial⟩
  · subst hr
    rw [scanLines_drop_create caseTable d rest1 _ _ hd]
    simp only [Outcome.ok.injEq, ScanState.mk.injEq]
    exact ⟨by omega, by omega, trivial⟩

/-- The loop under Drop on lines `pre ++ d :: post`, where `pre` has no DROP
marker line and `d` is one: `table` and `start` come from `d`, and `end` stays
`len(lines)`. -/
theorem scanLines_drop_section (caseTable : Nat → Nat) (pre post : List GoString)
    (d : GoString)
    (hpre : ∀ l ∈ pre, isDropMarker caseTable l = false)
    (hd : isDropMarker caseTable d = true) :
    scanLines caseTable false (pre ++ d :: post) 0 (initialState (pre ++ d :: post))
      = Outcome.ok
          { start := pre.length + 1
            stop := pre.length + 1 + post.length
            table := TrimSpace (d.drop dropMarker.length) } := by
  have hstop : (initialState (pre ++ d :: post)).stop = pre.length + 1 + post.length := by
    simp only [initialState, List.length_append, List.length_cons]
    omega
  generalize initialState (pre ++ d :: post) = st0 at hstop
  obtain ⟨st1, h1, _, _, h4⟩ := scanLines_append caseTable false pre hpre 0 st0
  have h5 := h4 (Or.inl rfl)
  subst h5
  rw [h1, scanLines_drop_drop caseTable d post _ _ hd]
  simp only [Outcome.ok.injEq, ScanState.mk.injEq]
  exact ⟨by omega, hstop, trivial⟩

/-- The result of extractSQLSection under Create for lines
`pre ++ c :: mid ++ rest` as in `scanLines_create_section`, when the table name
on `c` is not empty: the body is `mid`. -/
theorem extract_create_section (caseTable : Nat → Nat) (text : GoString)
    (pre mid rest : List GoString) (c : GoString)
    (hlines : Split text newline = pre ++ c :: mid ++ rest)
    (hpre : ∀ l ∈ pre, isDropMarker caseTable l = false)
    (hc : isCreateMarker caseTable c = true)
    (hmid : ∀ l ∈ mid, isCreateMarker caseTable l = false ∧ isDropMarker caseTable l = false)
    (hrest : rest = [] ∨ ∃ d rest1, rest = d :: rest1 ∧ isDropMarker caseTable d = true)
    (hname : TrimSpace (c.drop createMarker.length) ≠ []) :
    extractSQLSection caseTable text true
      = if TrimSpace (Join mid [newline]) = []
        then Outcome.error
          (bytes "empty SQL body for table " ++ TrimSpace (c.drop createMarker.length))
        else Outcome.ok
          { Table := TrimSpace (c.drop createMarker.length), SQL := Join mid [newline] } := by
  have hscan := scanLines_create_section caseTable pre mid rest c hpre hc hmid hrest
  rw [← hlines] at hscan
  have hbody : ((Split text newline).take (pre.length + 1 + mid.length)).drop (pre.length + 1)
      = mid := by
    rw [hlines]
    have := take_drop_middle (pre ++ [c]) mid rest
    simpa [List.append_assoc] using this
  rw [extract_of_scan caseTable text true _ hscan hname
    ⟨by simp only []; omega, by
      rw [hlines]
      simp only [List.length_append, List.length_cons]
      omega⟩]
  simp only [hbody]

/-- The result of extractSQLSection under Drop for lines `pre ++ d :: post` as in
`scanLines_drop_section`, when the table name on `d` is not empty: the body is
`post`. -/
theorem extract_drop_section (caseTable : Nat → Nat) (text : GoString)
    (pre post : List GoString) (d : GoString)
    (hlines : Split text newline = pre ++ d :: post)
    (hpre : ∀ l ∈ pre, isDropMarker caseTable l = false)
    (hd : isDropMarker caseTable d = true)
    (hname : TrimSpace (d.drop dropMarker.length) ≠ []) :
    extractSQLSection caseTable text false
      = if TrimSpace (Join post [newline]) = []
        then Outcome.error
          (bytes "empty SQL body for table " ++ TrimSpace (d.drop dropMarker.length))
        else Outcome.ok
          { Table := TrimSpace (d.drop dropMarker.length), SQL := Join post [newline] } := by
  have hscan := scanLines_drop_section caseTable pre post d hpre hd
  rw [← hlines] at hscan
  have hbody : ((Split text newline).take (pre.length + 1 + post.length)).drop (pre.length + 1)
      = post := by
    rw [hlines]
    have := take_drop_middle (pre ++ [d]) post []
    simpa [List.append_assoc] using this
  rw [extract_of_scan caseTable text false _ hscan hname
    ⟨by simp only []; omega, by
      rw [hlines]
      simp only [List.length_append, List.length_cons]
      omega⟩]
  simp only [hbody]

/-! ## Blank text -/

theorem Split_mem_bytes (text : GoString) (sep : Nat) :
    ∀ l ∈ Split text sep, ∀ b ∈ l, b ∈ text := by
  induction text with
  | nil =>
    intro l hl b hb
    simp only [Split, List.mem_singleton] at hl
    rw [hl] at hb
    exact hb
  | cons c t ih =>
    intro l hl b hb
    simp only [Split] at hl
    split_ifs at hl with hsep
    · rcases List.mem_cons.mp hl with h | h
      · rw [h] at hb
        exact absurd hb (List.not_mem_nil b)
      · exact List.mem_cons_of_mem _ (ih l h b hb)
    · cases hs : Split t sep with
      | nil =>
        rw [hs] at hl
        simp only [List.mem_singleton] at hl
        rw [hl] at hb
        simp only [List.mem_singleton] at hb
        rw [hb]
        exact List.mem_cons_self _ _
      | cons l0 ls =>
        rw [hs] at hl ih
        simp only [] at hl
        rcases List.mem_cons.mp hl with h | h
        · rw [h] at hb
          rcases List.mem_cons.mp hb with h1 | h1
          · rw [h1]
            exact List.mem_cons_self _ _
          · exact List.mem_cons_of_mem _ (ih l0 (List.mem_cons_self _ _) b h1)
        · exact List.mem_cons_of_mem _ (ih l (List.mem_cons_of_mem _ h) b hb)

theorem asciiSpace_lt (b : Nat) (h : asciiSpace b = true) : b ≤ 0x20 := by
  simp only [asciiSpace, decide_eq_true_eq] at h
  omega

theorem TrimSpace_of_asciiSpace (s : GoString) (h : ∀ b ∈ s, asciiSpace b = true) :
    TrimSpace s = [] := by
  induction s with
  | nil => rfl
  | cons c s ih =>
    have hc := h c (List.mem_cons_self _ _)
    have hlt := asciiSpace_lt c hc
    simp only [TrimSpace, hc, if_true]
    rw [if_neg (by omega)]
    exact ih (fun b hb => h b (List.mem_cons_of_mem _ hb))

theorem ToLower_of_asciiSpace (caseTable : Nat → Nat) (s : GoString)
    (h : ∀ b ∈ s, asciiSpace b = true) : ToLower caseTable s = s := by
  have hall : s.all (fun c => decide (c < 0x80)) = true := by
    rw [List.all_eq_true]
    intro b hb
    have := asciiSpace_lt b (h b hb)
    simp only [decide_eq_true_eq]
    omega
  simp only [ToLower, hall, if_true]
  conv_rhs => rw [← List.map_id s]
  apply List.map_congr_left
  intro b hb
  have := asciiSpace_lt b (h b hb)
  rw [if_neg (by omega)]
  rfl

/-- A line of ASCII white space is no marker line. -/
theorem not_marker_of_asciiSpace (caseTable : Nat → Nat) (line : GoString)
    (h : ∀ b ∈ line, asciiSpace b = true) :
    isCreateMarker caseTable line = false ∧ isDropMarker caseTable line = false := by
  have hf : folded caseTable line = [] := by
    unfold folded
    rw [ToLower_of_asciiSpace caseTable line h]
    exact TrimSpace_of_asciiSpace line h
  unfold isCreateMarker isDropMarker
  rw [hf]
  exact ⟨by decide, by decide⟩

/-! ## Replacement -/

theorem HasPrefix_cons_singleton (b c : Nat) (t : GoString) :
    HasPrefix (b :: t) [c] = decide (b = c) := by
  by_cases h : b = c <;> simp [HasPrefix, h]

/-- Replacing a byte by nothing leaves no such byte. -/
theorem replaceFrom_remove (c : Nat) (s : GoString) : c ∉ replaceFrom [c] [] s 0 := by
  induction s with
  | nil => simp [replaceFrom]
  | cons b t ih =>
    simp only [replaceFrom, HasPrefix_cons_singleton, decide_eq_true_eq, List.length_singleton,
      Nat.sub_self, List.nil_append]
    split_ifs with h
    · exact ih
    · intro hm
      rcases List.mem_cons.mp hm with h1 | h1
      · exact h h1.symm
      · exact ih h1

theorem ReplaceAll_remove (c : Nat) (s : GoString) : c ∉ ReplaceAll s [c] [] := by
  have : ReplaceAll s [c] [] = replaceFrom [c] [] s 0 := by
    simp [ReplaceAll]
  rw [this]
  exact replaceFrom_remove c s

/-- A string without an instance of `old` is left as it is. -/
theorem replaceFrom_of_absent (old new : GoString) (s : GoString)
    (h : ¬ old <:+: s) : replaceFrom old new s 0 = s := by
  induction s with
  | nil => rfl
  | cons b t ih =>
    have hp : HasPrefix (b :: t) old = false := by
      cases hh : HasPrefix (b :: t) old with
      | false => rfl
      | true => exact absurd ((HasPrefix_iff _ _).mp hh).isInfix h
    have ht : ¬ old <:+: t := fun hi => h (hi.trans (List.suffix_cons b t).isInfix)
    simp only [replaceFrom, hp, Bool.false_eq_true, if_false, ih ht]

/-- Replacement by a string that is not shorter never shortens the string, up
to the bytes still to skip. -/
theorem length_le_replaceFrom (old new : GoString) (hlen : old.length ≤ new.length)
    (hold : old ≠ []) (s : GoString) (k : Nat) :
    s.length ≤ (replaceFrom old new s k).length + k := by
  have hpos : 0 < old.length := List.length_pos.mpr hold
  induction s generalizing k with
  | nil => simp [replaceFrom]
  | cons b t ih =>
    cases k with
    | succ k =>
      simp only [replaceFrom, List.length_cons]
      have := ih k
      omega
    | zero =>
      simp only [replaceFrom]
      split_ifs
      · have := ih (old.length - 1)
        simp only [List.length_append, List.length_cons]
        omega
      · have := ih 0
        simp only [List.length_cons]
        omega

/-- A string with an instance of `old` grows when the replacement is longer. -/
theorem length_lt_replaceFrom (old new : GoString) (hlen : old.length < new.length)
    (hold : old ≠ []) (s : GoString) (h : old <:+: s) :
    s.length < (replaceFrom old new s 0).length := by
  have hpos : 0 < old.length := List.length_pos.mpr hold
  induction s with
  | nil => exact absurd (List.infix_nil.mp h) hold
  | cons b t ih =>
    simp only [replaceFrom]
    split_ifs with hp
    · have := length_le_replaceFrom old new (Nat.le_of_lt hlen) hold t (old.length - 1)
      simp only [List.length_append, List.length_cons]
      omega
    · have ht : old <:+: t := by
        rcases List.infix_cons_iff.mp h with h1 | h1
        · exact absurd ((HasPrefix_iff _ _).mpr h1) hp
        · exact h1
      have := ih ht
      simp only [List.length_cons]
      omega

/-- When the replacement holds `old`, the result of replacing in a string with
an instance of `old` holds `old` again. -/
theorem replaceFrom_keeps_instance (old new : GoString) (hnew : old <:+: new) (hold : old ≠ [])
    (s : GoString) (h : old <:+: s) : old <:+: replaceFrom old new s 0 := by
  induction s with
  | nil => exact absurd (List.infix_nil.mp h) hold
  | cons b t ih =>
    simp only [replaceFrom]
    split_ifs with hp
    · exact hnew.trans (List.prefix_append _ _).isInfix
    · have ht : old <:+: t := by
        rcases List.infix_cons_iff.mp h with h1 | h1
        · exact absurd ((HasPrefix_iff _ _).mpr h1) hp
        · exact h1
      exact (ih ht).trans (List.suffix_cons b _).isInfix

/-- In Create mode with a non-empty table, applySchemaExact is the replacement
loop on the table name. -/
theorem applySchemaExact_create (sql schema table : GoString) (h : table ≠ []) :
    applySchemaExact sql schema table true
      = replaceFrom table (schema ++ bytes "." ++ table) sql 0 := by
  have hne : table ≠ schema ++ bytes "." ++ table := by
    intro he
    have := congrArg List.length he
    have h1 : (bytes ".").length = 1 := by decide
    simp only [List.length_append, h1] at this
    omega
  simp only [applySchemaExact, ReplaceAll, if_neg hne, if_neg h]
  simp

/-! ## White space -/

theorem first_of_two (b : Nat) (h1 : 0xC2 ≤ b) (h2 : b < 0xE0) : first b = 0x02 := by
  unfold first
  rw [if_neg (by omega), if_neg (by omega), if_pos (by omega)]

theorem first_of_three (b : Nat) (h1 : 0xE1 ≤ b) (h2 : b < 0xED) : first b = 0x03 := by
  unfold first
  rw [if_neg (by omega), if_neg (by omega), if_neg (by omega), if_neg (by omega),
    if_pos (by omega)]

/-- The range of a space: ASCII, Latin-1 above ASCII, or U+1680 to U+3000. -/
theorem IsSpace_range (r : Nat) (h : IsSpace r = true) :
    r ≤ 0x7F ∨ (0x80 ≤ r ∧ r ≤ 0xFF) ∨ (0x1680 ≤ r ∧ r ≤ 0x3000) := by
  unfold IsSpace at h
  split_ifs at h <;> simp only [decide_eq_true_eq] at h <;> omega

/-- Decoding the encoding of a space gives the space back, with the width of
its encoding. -/
theorem decode_encode_space (r : Nat) (h : IsSpace r = true) (t : GoString) :
    DecodeRuneInString (EncodeRune r ++ t) = (r, (EncodeRune r).length)
    ∧ 0 < (EncodeRune r).length := by
  rcases IsSpace_range r h with h1 | h1 | h1
  · have he : EncodeRune r = [r] := by simp [EncodeRune, h1]
    have hf : first r = 0xF0 := by
      unfold first
      rw [if_pos (by omega)]
    simp [he, DecodeRuneInString, hf]
  · have he : EncodeRune r = [0xC0 + r / 64, 0x80 + r % 64] := by
      unfold EncodeRune
      rw [if_neg (by omega), if_pos (by omega)]
    have hf := first_of_two (0xC0 + r / 64) (by omega) (by omega)
    rw [he]
    simp only [List.cons_append, List.nil_append, DecodeRuneInString, hf, acceptRanges]
    norm_num
    split_ifs <;> first | omega | (rw [Prod.mk.injEq]; exact ⟨by omega, rfl⟩)
  · have he : EncodeRune r = [0xE0 + r / 4096, 0x80 + r / 64 % 64, 0x80 + r % 64] := by
      unfold EncodeRune
      rw [if_neg (by omega), if_neg (by omega), if_neg (by omega), if_pos (by omega)]
    have hf := first_of_three (0xE0 + r / 4096) (by omega) (by omega)
    rw [he]
    simp only [List.cons_append, List.nil_append, DecodeRuneInString, hf, acceptRanges]
    norm_num
    split_ifs <;> first | omega | (rw [Prod.mk.injEq]; exact ⟨by omega, rfl⟩)

theorem trimLeftSpace_nil (fuel : Nat) : trimLeftSpace fuel [] = [] := by
  cases fuel <;> rfl

/-- Trimming the leading spaces of a string of spaces leaves nothing. -/
theorem trimLeftSpace_spaces (rs : List Nat) (h : ∀ r ∈ rs, IsSpace r = true) (fuel : Nat)
    (hf : (rs.flatMap EncodeRune).length ≤ fuel) :
    trimLeftSpace fuel (rs.flatMap EncodeRune) = [] := by
  induction rs generalizing fuel with
  | nil => exact trimLeftSpace_nil fuel
  | cons r rs ih =>
    have hr := h r (List.mem_cons_self _ _)
    obtain ⟨hd, hpos⟩ := decode_encode_space r hr (rs.flatMap EncodeRune)
    rw [List.flatMap_cons] at hf ⊢
    rw [List.length_append] at hf
    cases fuel with
    | zero => omega
    | succ n =>
      cases he : EncodeRune r ++ rs.flatMap EncodeRune with
      | nil =>
        have := congrArg List.length he
        simp only [List.length_append, List.length_nil] at this
        omega
      | cons e0 es =>
        simp only [trimLeftSpace]
        rw [← he, hd]
        simp only [hr, if_true, List.drop_left]
        exact ih (fun x hx => h x (List.mem_cons_of_mem _ hx)) n (by omega)

theorem trimRightSpace_nil : trimRightSpace [] = [] := by
  rfl

/-- Trimming a string of spaces leaves nothing. -/
theorem TrimSpace_spaces (rs : List Nat) (h : ∀ r ∈ rs, IsSpace r = true) :
    TrimSpace (rs.flatMap EncodeRune) = [] := by
  induction rs with
  | nil => rfl
  | cons r rs ih =>
    have hr := h r (List.mem_cons_self _ _)
    have ih1 := ih (fun x hx => h x (List.mem_cons_of_mem _ hx))
    by_cases h1 : r ≤ 0x7F
    · have he : EncodeRune r = [r] := by simp [EncodeRune, h1]
      have hs : asciiSpace r = true := by
        unfold IsSpace at hr
        rw [if_pos (by omega)] at hr
        simp only [decide_eq_true_eq] at hr
        simp only [asciiSpace, decide_eq_true_eq]
        omega
      rw [List.flatMap_cons, he]
      simp only [List.singleton_append, TrimSpace, hs, if_true]
      rw [if_neg (by omega)]
      exact ih1
    · have htl := trimLeftSpace_spaces (r :: rs) h ((r :: rs).flatMap EncodeRune).length
        (Nat.le_refl _)
      have hge : ∀ b ∈ EncodeRune r, 0x80 ≤ b := by
        intro b hb
        unfold EncodeRune at hb
        split_ifs at hb <;> simp at hb <;> omega
      obtain ⟨_, hpos⟩ := decode_encode_space r hr []
      cases he : (r :: rs).flatMap EncodeRune with
      | nil =>
        have := congrArg List.length he
        simp only [List.flatMap_cons, List.length_append, List.length_nil] at this
        omega
      | cons e0 es =>
        have h0 : 0x80 ≤ e0 := by
          apply hge
          have hm : e0 ∈ EncodeRune r ++ rs.flatMap EncodeRune := by
            rw [← List.flatMap_cons, he]
            exact List.mem_cons_self _ _
          cases hx : EncodeRune r with
          | nil => rw [hx] at hpos; exact absurd hpos (by decide)
          | cons x xs =>
            rw [List.flatMap_cons, hx, List.cons_append] at he
            rw [(List.cons.inj he).1]
            exact List.mem_cons_self _ _
        rw [he] at htl
        simp only [TrimSpace]
        rw [if_pos h0, htl]
        rfl

theorem WhiteSpaceOnly_append {s t : GoString} (hs : WhiteSpaceOnly s)
    (ht : WhiteSpaceOnly t) : WhiteSpaceOnly (s ++ t) := by
  obtain ⟨rs, h1, h2⟩ := hs
  obtain ⟨rt, k1, k2⟩ := ht
  refine ⟨rs ++ rt, ?_, ?_⟩
  · intro r hr
    rcases List.mem_append.mp hr with h | h
    · exact h1 r h
    · exact k1 r h
  · rw [h2, k2, List.flatMap_append]

theorem WhiteSpaceOnly_newline : WhiteSpaceOnly [newline] :=
  ⟨[newline], by decide, by decide⟩

theorem WhiteSpaceOnly_nil : WhiteSpaceOnly [] :=
  ⟨[], by simp, rfl⟩

/-- Lines of white space joined by newlines are white space. -/
theorem WhiteSpaceOnly_Join (ls : List GoString) (h : ∀ l ∈ ls, WhiteSpaceOnly l) :
    WhiteSpaceOnly (Join ls [newline]) := by
  induction ls with
  | nil => exact WhiteSpaceOnly_nil
  | cons a rest ih =>
    cases rest with
    | nil => exact h a (List.mem_cons_self _ _)
    | cons b rest1 =>
      simp only [Join]
      exact WhiteSpaceOnly_append
        (WhiteSpaceOnly_append (h a (List.mem_cons_self _ _)) WhiteSpaceOnly_newline)
        (ih (fun l hl => h l (List.mem_cons_of_mem _ hl)))

/-- A body of white-space lines is blank for extractSQLSection. -/
theorem TrimSpace_Join_blank (ls : List GoString) (h : ∀ l ∈ ls, WhiteSpaceOnly l) :
    TrimSpace (Join ls [newline]) = [] := by
  obtain ⟨rs, h1, h2⟩ := WhiteSpaceOnly_Join ls h
  rw [h2]
  exact TrimSpace_spaces rs h1

/-! ## Lines that begin with a marker -/

theorem decode_ascii (b : Nat) (t : GoString) (h : b < 0x80) :
    DecodeRuneInString (b :: t) = (b, 1) := by
  have hf : first b = 0xF0 := by
    unfold first
    rw [if_pos h]
  simp [DecodeRuneInString, hf]

/-- The first loop of strings.Map keeps the bytes it has passed. -/
theorem mapFirst_done_initial (caseTable : Nat → Nat) (fuel : Nat) (done s : GoString) :
    done <+: mapFirst caseTable fuel done s := by
  induction fuel generalizing done s with
  | zero => exact List.prefix_append _ _
  | succ n ih =>
    cases s with
    | nil => exact List.prefix_refl _
    | cons s0 t =>
      simp only [mapFirst]
      split_ifs
      · exact (List.prefix_append _ _).trans (ih _ _)
      · exact (List.prefix_append _ _).trans (ih _ _)
      · rw [List.append_assoc]
        exact List.prefix_append _ _
      · rw [List.append_assoc]
        exact List.prefix_append _ _

/-- The first loop of strings.Map passes over ASCII bytes that are no upper-case
letters. -/
theorem mapFirst_ascii (caseTable : Nat → Nat) (m : GoString)
    (hm : ∀ b ∈ m, b < 0x80 ∧ ¬ (0x41 ≤ b ∧ b ≤ 0x5A)) (fuel : Nat) (done t : GoString)
    (hf : m.length ≤ fuel) :
    mapFirst caseTable fuel done (m ++ t)
      = mapFirst caseTable (fuel - m.length) (done ++ m) t := by
  induction m generalizing fuel done with
  | nil => simp
  | cons b m ih =>
    obtain ⟨hb1, hb2⟩ := hm b (List.mem_cons_self _ _)
    cases fuel with
    | zero => simp at hf
    | succ n =>
      have hlow : unicodeToLower caseTable b = b := by
        unfold unicodeToLower
        rw [if_pos (by omega), if_neg hb2]
      have hne : b ≠ RuneError := by
        unfold RuneError
        omega
      simp only [List.cons_append, mapFirst, decode_ascii b (m ++ t) hb1, hlow, hne,
        ne_eq, not_false_eq_true, and_self, if_true, List.take_succ_cons, List.take_zero,
        List.drop_succ_cons, List.drop_zero]
      rw [ih (fun x hx => hm x (List.mem_cons_of_mem _ hx)) n (done ++ [b])
        (by simpa using hf)]
      simp

/-- Lower-casing keeps a leading run of ASCII bytes that are no upper-case
letters. -/
theorem ToLower_keeps_start (caseTable : Nat → Nat) (m t : GoString)
    (hm : ∀ b ∈ m, b < 0x80 ∧ ¬ (0x41 ≤ b ∧ b ≤ 0x5A)) :
    m <+: ToLower caseTable (m ++ t) := by
  unfold ToLower
  split_ifs
  · rw [List.map_append]
    have : m.map (fun c => if 0x41 ≤ c ∧ c ≤ 0x5A then c + 0x20 else c) = m := by
      conv_rhs => rw [← List.map_id m]
      apply List.map_congr_left
      intro b hb
      rw [if_neg (hm b hb).2]
      rfl
    rw [this]
    exact List.prefix_append _ _
  · rw [mapFirst_ascii caseTable m hm _ [] t (by simp)]
    have := mapFirst_done_initial caseTable ((m ++ t).length - m.length) ([] ++ m) t
    simpa using this

theorem drop_eq_getD_cons (t : GoString) (k : Nat) (hk : k < t.length) :
    t.drop k = t.getD k 0 :: t.drop (k + 1) := by
  rw [List.getD_eq_getElem _ _ hk]
  exact List.drop_eq_getElem_cons hk

/-- The backward scan for the start of the last rune does not pass a byte that
can start a rune. -/
theorem lastRuneStart_bound (t : GoString) (k : Nat) (hk : k + 2 ≤ t.length)
    (hRS : RuneStart (t.getD k 0) = true) :
    k ≤ lastRuneStart t t.length ∧ lastRuneStart t t.length + 2 ≤ t.length := by
  have key : ∀ j, ¬ (j ≤ t.length ∧ RuneStart (t.getD (t.length - j) 0) = true) →
      j ≤ t.length → k ≠ t.length - j := by
    intro j hn hj hkj
    apply hn
    refine ⟨hj, ?_⟩
    rw [← hkj]
    exact hRS
  unfold lastRuneStart
  split_ifs with h1 h2 h3
  · omega
  · have := key 2 h1 (by omega)
    omega
  · have := key 2 h1 (by omega)
    have := key 3 h2 (by omega)
    omega
  · have := key 2 h1 (by omega)
    by_cases e3 : 3 ≤ t.length
    · have := key 3 h2 e3
      by_cases e4 : 4 ≤ t.length
      · have := key 4 h3 e4
        omega
      · omega
    · omega

/-- Decoding the last rune of a string that holds an ASCII byte other than a
space at index `k` never reaches below `k`, and reaches `k` only with a rune
that is no space. -/
theorem decodeLast_bound (t : GoString) (k : Nat) (hk : k < t.length)
    (hl1 : t.getD k 0 < 0x80) (hl2 : IsSpace (t.getD k 0) = false) :
    1 ≤ (DecodeLastRuneInString t).2
    ∧ (DecodeLastRuneInString t).2 ≤ t.length - k
    ∧ ((DecodeLastRuneInString t).2 = t.length - k →
        IsSpace (DecodeLastRuneInString t).1 = false) := by
  have hRS : RuneStart (t.getD k 0) = true := by
    simp only [RuneStart, Bool.not_eq_true', Bool.and_eq_false_imp, decide_eq_true_eq,
      decide_eq_false_iff_not]
    omega
  unfold DecodeLastRuneInString
  simp only []
  rw [if_neg (by omega : ¬ t.length = 0)]
  by_cases hr : t.getD (t.length - 1) 0 < 0x80
  · rw [if_pos hr]
    refine ⟨Nat.le_refl 1, by omega, ?_⟩
    intro h
    have hk1 : t.length - 1 = k := by
      simp only [] at h
      omega
    simp only []
    rw [hk1]
    exact hl2
  · rw [if_neg hr]
    have hk2 : k + 2 ≤ t.length := by
      by_contra hc
      have hk1 : t.length - 1 = k := by omega
      rw [hk1] at hr
      exact hr hl1
    obtain ⟨hs1, hs2⟩ := lastRuneStart_bound t k hk2 hRS
    split_ifs with hne
    · exact ⟨Nat.le_refl 1, by omega, fun h => by simp only [] at h; omega⟩
    · rw [ne_eq, not_not] at hne
      refine ⟨by omega, by omega, ?_⟩
      intro h
      exfalso
      have hst : lastRuneStart t t.length = k := by omega
      rw [hst, drop_eq_getD_cons t k hk, decode_ascii _ _ hl1] at hne
      simp only [] at hne
      omega

theorem getD_take (s : GoString) (i k : Nat) (hk : k < i) :
    (s.take i).getD k 0 = s.getD k 0 := by
  simp [List.getD_eq_getElem?_getD, List.getElem?_take, hk]

/-- The backward search for a rune that is no space stops at or above an ASCII
byte that is no space. -/
theorem lastIndexNotSpace_bound (s : GoString) (k : Nat)
    (hl1 : s.getD k 0 < 0x80) (hl2 : IsSpace (s.getD k 0) = false) (fuel i : Nat)
    (hki : k < i) (hi : i ≤ s.length) (hf : i ≤ fuel) :
    ∃ j, lastIndexNotSpace fuel s i = some j ∧ k ≤ j ∧ j < i := by
  induction fuel generalizing i with
  | zero => omega
  | succ n ih =>
    have hlen : (s.take i).length = i := by
      rw [List.length_take]
      omega
    have hb := decodeLast_bound (s.take i) k (by omega)
      (by rw [getD_take s i k hki]; exact hl1) (by rw [getD_take s i k hki]; exact hl2)
    rw [hlen] at hb
    obtain ⟨b1, b2, b3⟩ := hb
    simp only [lastIndexNotSpace]
    rw [if_neg (by omega)]
    split_ifs with hsp
    · have hne : (DecodeLastRuneInString (s.take i)).2 ≠ i - k := by
        intro h
        rw [b3 h] at hsp
        exact absurd hsp (by decide)
      obtain ⟨j, e1, e2, e3⟩ := ih (i - (DecodeLastRuneInString (s.take i)).2)
        (by omega) (by omega) (by omega)
      exact ⟨j, e1, e2, by omega⟩
    · exact ⟨_, rfl, by omega, by omega⟩

/-- Trimming trailing spaces keeps a start of the string that ends in an ASCII
byte other than a space. -/
theorem trimRightSpace_keeps_start (q z : GoString) (l : Nat) (hl1 : l < 0x80)
    (hl2 : IsSpace l = false) : q ++ [l] <+: trimRightSpace (q ++ [l] ++ z) := by
  have hget : (q ++ [l] ++ z).getD q.length 0 = l := by
    rw [List.append_assoc, List.getD_append_right _ _ _ _ (Nat.le_refl _)]
    simp
  obtain ⟨j, e1, e2, e3⟩ := lastIndexNotSpace_bound (q ++ [l] ++ z) q.length
    (by rw [hget]; exact hl1) (by rw [hget]; exact hl2) (q ++ [l] ++ z).length
    (q ++ [l] ++ z).length (by simp) (Nat.le_refl _) (Nat.le_refl _)
  have htake : ∀ n, q.length + 1 ≤ n → q ++ [l] <+: (q ++ [l] ++ z).take n := by
    intro n hn
    rw [List.prefix_take_iff]
    exact ⟨List.prefix_append _ _, by simpa using hn⟩
  unfold trimRightSpace
  rw [e1]
  simp only []
  split_ifs
  · apply htake
    have hd := drop_eq_getD_cons (q ++ [l] ++ z) j e3
    rw [hd]
    have := decode_width_pos ((q ++ [l] ++ z).getD j 0) ((q ++ [l] ++ z).drop (j + 1))
    omega
  · exact htake _ (by omega)

theorem trimSpaceStop_cons (c : Nat) (r : GoString) :
    trimSpaceStop (c :: r)
      = if 0x80 ≤ c then trimRightSpace (c :: r).reverse
        else if asciiSpace c = true then trimSpaceStop r
        else (c :: r).reverse := by
  rw [trimSpaceStop]

theorem TrimSpace_cons (c : Nat) (s : GoString) :
    TrimSpace (c :: s)
      = if 0x80 ≤ c then trimRightSpace (trimLeftSpace (c :: s).length (c :: s))
        else if asciiSpace c = true then TrimSpace s
        else trimSpaceStop (c :: s).reverse := by
  rw [TrimSpace]

theorem asciiSpace_eq_IsSpace (l : Nat) (h : l < 0x80) : IsSpace l = asciiSpace l := by
  unfold IsSpace asciiSpace
  rw [if_pos (by omega)]
  by_cases h1 : l = 0x09 ∨ l = 0x0A ∨ l = 0x0B ∨ l = 0x0C ∨ l = 0x0D ∨ l = 0x20
  · rw [decide_eq_true h1]
    simp only [decide_eq_true_eq]
    omega
  · rw [decide_eq_false h1]
    simp only [decide_eq_false_iff_not]
    omega

/-- The second loop of strings.TrimSpace keeps a start of the string that ends
in an ASCII byte other than a space. -/
theorem trimSpaceStop_keeps_start (q : GoString) (l : Nat) (hl1 : l < 0x80)
    (hl2 : IsSpace l = false) (y : GoString) :
    q ++ [l] <+: trimSpaceStop (y ++ (q ++ [l]).reverse) := by
  have hl3 : asciiSpace l = false := by
    rw [← asciiSpace_eq_IsSpace l hl1]
    exact hl2
  induction y with
  | nil =>
    simp only [List.nil_append, List.reverse_append, List.reverse_cons, List.reverse_nil,
      List.singleton_append, trimSpaceStop, hl3]
    rw [if_neg (by omega)]
    simp
  | cons c y ih =>
    rw [List.cons_append, trimSpaceStop_cons]
    split_ifs
    · have : (c :: (y ++ (q ++ [l]).reverse)).reverse = q ++ [l] ++ (y.reverse ++ [c]) := by
        simp
      rw [this]
      exact trimRightSpace_keeps_start q (y.reverse ++ [c]) l hl1 hl2
    · exact ih
    · have : (c :: (y ++ (q ++ [l]).reverse)).reverse = q ++ [l] ++ (y.reverse ++ [c]) := by
        simp
      rw [this]
      exact List.prefix_append _ _

/-- Trimming keeps a start of the string that begins and ends with ASCII bytes
other than spaces. -/
theorem TrimSpace_keeps_start (a : Nat) (q x : GoString) (l : Nat)
    (ha1 : a < 0x80) (ha2 : asciiSpace a = false) (hl1 : l < 0x80)
    (hl2 : IsSpace l = false) :
    a :: q ++ [l] <+: TrimSpace (a :: q ++ [l] ++ x) := by
  have hrev : (a :: (q ++ [l] ++ x)).reverse = x.reverse ++ ((a :: q) ++ [l]).reverse := by
    simp
  have hs : a :: q ++ [l] ++ x = a :: (q ++ [l] ++ x) := by
    simp
  rw [hs, TrimSpace_cons, if_neg (by omega), ha2, hrev]
  simp only [Bool.false_eq_true, if_false]
  exact trimSpaceStop_keeps_start (a :: q) l hl1 hl2 x.reverse

/-- A line that begins with `--create:` is a CREATE marker line, and a line that
begins with `--drop:` is a DROP marker line, whatever follows the marker. -/
theorem marker_line_of_literal (caseTable : Nat → Nat) (name : GoString) :
    isCreateMarker caseTable (createMarker ++ name) = true
    ∧ isDropMarker caseTable (dropMarker ++ name) = true := by
  constructor
  · unfold isCreateMarker folded
    rw [HasPrefix_iff]
    obtain ⟨x, hx⟩ := ToLower_keeps_start caseTable createMarker name
      (by rw [createMarker_eq]; decide)
    rw [← hx, createMarker_eq]
    exact TrimSpace_keeps_start 45 [45, 99, 114, 101, 97, 116, 101] x 58
      (by decide) (by decide) (by decide) (by decide)
  · unfold isDropMarker folded
    rw [HasPrefix_iff]
    obtain ⟨x, hx⟩ := ToLower_keeps_start caseTable dropMarker name
      (by rw [dropMarker_eq]; decide)
    rw [← hx, dropMarker_eq]
    exact TrimSpace_keeps_start 45 [45, 100, 114, 111, 112] x 58
      (by decide) (by decide) (by decide) (by decide)

/-! ## Text that is not blank -/

/-- The bytes of a decoded rune after its first byte are continuation bytes. -/
theorem decode_continuation (s0 : Nat) (t : GoString) (j : Nat) (h1 : 1 ≤ j)
    (h2 : j < (DecodeRuneInString (s0 :: t)).2) : 0x80 ≤ (s0 :: t).getD j 0 := by
  generalize hd : DecodeRuneInString (s0 :: t) = d at h2
  rcases first_cases s0 with h | h | h | h | h | h | h | h | h
  · simp [DecodeRuneInString, h.2] at hd
    rw [← hd] at h2
    simp only [] at h2
    omega
  · simp [DecodeRuneInString, h, RuneError] at hd
    rw [← hd] at h2
    simp only [] at h2
    omega
  all_goals
    simp only [DecodeRuneInString, h.2, acceptRanges] at hd
    norm_num at hd
    split_ifs at hd <;> subst hd <;> simp only [] at h2
    all_goals
      first
      | omega
      | (have hj : j = 1 ∨ j = 2 ∨ j = 3 := by omega
         rcases hj with hj | hj | hj <;> subst hj <;>
           simp only [List.getD_eq_getElem?_getD, List.getElem?_cons_succ] <;> omega)

/-- Decoding a rune in front of an ASCII byte does not reach that byte. -/
theorem decode_width_le (q z : GoString) (l : Nat) (hq : q ≠ []) (hl : l < 0x80) :
    (DecodeRuneInString (q ++ l :: z)).2 ≤ q.length := by
  cases q with
  | nil => exact absurd rfl hq
  | cons b q =>
    by_contra hc
    have := decode_continuation b (q ++ l :: z) (q.length + 1) (by omega)
      (by simpa using hc)
    rw [← List.cons_append, List.getD_append_right _ _ _ _ (by simp)] at this
    simp at this
    omega

/-- Dropping leading spaces stops at or before an ASCII byte that is no space. -/
theorem trimLeftSpace_keeps (z : GoString) (l : Nat) (hl1 : l < 0x80)
    (hl2 : IsSpace l = false) (fuel : Nat) (q : GoString) :
    ∃ q1, trimLeftSpace fuel (q ++ l :: z) = q1 ++ l :: z := by
  induction fuel generalizing q with
  | zero => exact ⟨q, rfl⟩
  | succ n ih =>
    cases q with
    | nil =>
      refine ⟨[], ?_⟩
      simp only [List.nil_append, trimLeftSpace, decode_ascii l z hl1, hl2]
      simp
    | cons b q =>
      simp only [List.cons_append, trimLeftSpace]
      split_ifs
      · have hw := decode_width_le (b :: q) z l (by simp) hl1
        rw [← List.cons_append, List.drop_append_of_le_length hw]
        exact ih _
      · exact ⟨b :: q, rfl⟩

theorem trimRightSpace_ne_nil (q z : GoString) (l : Nat) (hl1 : l < 0x80)
    (hl2 : IsSpace l = false) : trimRightSpace (q ++ l :: z) ≠ [] := by
  intro h
  have := trimRightSpace_keeps_start q z l hl1 hl2
  rw [List.append_assoc, List.singleton_append, h] at this
  have := this.length_le
  simp at this

/-- A string that holds an ASCII byte other than a space is not blank. -/
theorem TrimSpace_ne_nil (s : GoString) (l : Nat) (hmem : l ∈ s) (hl1 : l < 0x80)
    (hl2 : IsSpace l = false) : TrimSpace s ≠ [] := by
  induction s with
  | nil => exact absurd hmem (List.not_mem_nil l)
  | cons c s ih =>
    rw [TrimSpace_cons]
    split_ifs with h1 h2
    · obtain ⟨q, z, hqz⟩ := List.append_of_mem hmem
      obtain ⟨q1, hq1⟩ := trimLeftSpace_keeps z l hl1 hl2 (q ++ l :: z).length q
      rw [hqz, hq1]
      exact trimRightSpace_ne_nil q1 z l hl1 hl2
    · rcases List.mem_cons.mp hmem with h | h
      · rw [h, asciiSpace_eq_IsSpace c (by omega), h2] at hl2
        exact absurd hl2 (by decide)
      · exact ih h
    · have hc : IsSpace c = false := by
        rw [asciiSpace_eq_IsSpace c (by omega)]
        exact Bool.eq_false_iff.mpr h2
      have := trimSpaceStop_keeps_start [] c (by omega) hc s.reverse
      rw [List.nil_append, List.reverse_singleton] at this
      rw [List.reverse_cons]
      intro h
      rw [h] at this
      have := this.length_le
      simp at this

theorem mem_Join (ls : List GoString) (sep l : GoString) (hl : l ∈ ls) :
    ∀ b ∈ l, b ∈ Join ls sep := by
  induction ls with
  | nil => exact absurd hl (List.not_mem_nil l)
  | cons a rest ih =>
    intro b hb
    cases rest with
    | nil =>
      rcases List.mem_cons.mp hl with h | h
      · rw [h] at hb
        exact hb
      · exact absurd h (List.not_mem_nil l)
    | cons a2 rest1 =>
      simp only [Join, List.mem_append]
      rcases List.mem_cons.mp hl with h | h
      · rw [h] at hb
        exact Or.inl (Or.inl hb)
      · exact Or.inr (ih h b hb)

/-- A comment line holds the byte `-`. -/
theorem dash_mem_of_comment (line : GoString) (h : isCommentLine line = true) :
    0x2D ∈ line := by
  unfold isCommentLine at h
  rw [HasPrefix_iff] at h
  have h1 : bytes "--" <:+: line := h.isInfix.trans (TrimSpace_contiguous line)
  exact h1.subset (by decide)

/-- A body with a comment line is not blank. -/
theorem TrimSpace_Join_comment (ls : List GoString)
    (h : ∃ l ∈ ls, isCommentLine l = true) : TrimSpace (Join ls [newline]) ≠ [] := by
  obtain ⟨l, hl, hc⟩ := h
  exact TrimSpace_ne_nil _ 0x2D (mem_Join ls [newline] l hl _ (dash_mem_of_comment l hc))
    (by decide) (by decide)

/-- A line that begins with `--` is a comment line. -/
theorem comment_line_of_literal (x : GoString) : isCommentLine (bytes "--" ++ x) = true := by
  unfold isCommentLine
  rw [HasPrefix_iff]
  have := TrimSpace_keeps_start 45 [] x 45 (by decide) (by decide) (by decide) (by decide)
  exact this

/-! ## The claims -/

/-- C2: for every valid migration file (one CREATE marker line, later one DROP
marker line, no other marker line, non-empty table names, non-blank bodies)
extractSQLSection succeeds for both operations; under Create the SQL is the
lines strictly between the two marker lines joined by a newline, so nothing
from the DROP marker line on; under Drop it is every line after the DROP marker
line to the end of the file.  A marker line is a line that the loop recognises;
by `marker_line_of_literal` every line that begins with the marker is one. -/
theorem extractSQLSection_valid_file (caseTable : Nat → Nat) (text : GoString)
    (pre : List GoString) (c : GoString) (mid : List GoString) (d : GoString)
    (post : List GoString) (h : ValidFile caseTable text pre c mid d post) :
    extractSQLSection caseTable text true
      = Outcome.ok
          { Table := TrimSpace (c.drop createMarker.length), SQL := Join mid [newline] }
    ∧ extractSQLSection caseTable text false
      = Outcome.ok
          { Table := TrimSpace (d.drop dropMarker.length), SQL := Join post [newline] } := by
  have hpre : ∀ l ∈ pre, isDropMarker caseTable l = false :=
    fun l hl => (h.noOther l (by simp [hl])).2
  have hmid : ∀ l ∈ mid,
      isCreateMarker caseTable l = false ∧ isDropMarker caseTable l = false :=
    fun l hl => h.noOther l (by simp [hl])
  constructor
  · rw [extract_create_section caseTable text pre mid (d :: post) c h.lines hpre h.createLine
      hmid (Or.inr ⟨d, post, rfl, h.dropLine⟩) h.createName, if_neg h.createBody]
  · have hl : Split text newline = (pre ++ c :: mid) ++ d :: post := h.lines
    have hpre2 : ∀ l ∈ pre ++ c :: mid, isDropMarker caseTable l = false := by
      intro l hl
      rcases List.mem_append.mp hl with h1 | h1
      · exact hpre l h1
      · rcases List.mem_cons.mp h1 with h2 | h2
        · rw [h2]
          exact not_both_markers caseTable c h.createLine
        · exact (hmid l h2).2
    rw [extract_drop_section caseTable text (pre ++ c :: mid) post d hl hpre2 h.dropLine
      h.dropName, if_neg h.dropBody]

/-- C2 at a concrete file: a comment line, the CREATE section, an empty line, the
DROP section. -/
theorem extractSQLSection_valid_file_witness :
    extractSQLSection noCase usersFile true
      = Outcome.ok
          { Table := bytes "users", SQL := bytes "CREATE TABLE users (id int);\n" }
    ∧ extractSQLSection noCase usersFile false
      = Outcome.ok { Table := bytes "users", SQL := bytes "DROP TABLE users;\n" } :=
  extractSQLSection_valid_file noCase usersFile [bytes "-- users"] (bytes "--create:users")
    [bytes "CREATE TABLE users (id int);", []] (bytes "--drop:users")
    [bytes "DROP TABLE users;", []]
    { lines := by decide
      createLine := by decide
      dropLine := by decide
      noOther := by decide
      createName := by decide
      dropName := by decide
      createBody := by decide
      dropBody := by decide }

/-- C1: the end-to-end scenario.  For the four-line widgets file and schema
`app`, the section extracted under Create, qualified by applySchemaExact, is
`CREATE TABLE app.widgets (id int);`, and the one under Drop is
`DROP TABLE app.widgets CASCADE;`. -/
theorem widgets_end_to_end (caseTable : Nat → Nat) :
    (∃ sec, extractSQLSection caseTable widgetsFile true = Outcome.ok sec
      ∧ applySchemaExact sec.SQL (bytes "app") sec.Table true
        = bytes "CREATE TABLE app.widgets (id int);")
    ∧ (∃ sec, extractSQLSection caseTable widgetsFile false = Outcome.ok sec
      ∧ applySchemaExact sec.SQL (bytes "app") sec.Table false
        = bytes "DROP TABLE app.widgets CASCADE;")
    ∧ statementToRun caseTable (bytes "app") widgetsFile true
      = Outcome.ok (bytes "CREATE TABLE app.widgets (id int);")
    ∧ statementToRun caseTable (bytes "app") widgetsFile false
      = Outcome.ok (bytes "DROP TABLE app.widgets CASCADE;") :=
  ⟨⟨⟨bytes "widgets", bytes "CREATE TABLE widgets (id int);"⟩, by rfl, by decide⟩,
    ⟨⟨bytes "widgets", bytes "DROP TABLE widgets;"⟩, by rfl, by decide⟩, by rfl, by rfl⟩

/-- C3: on the line `  --create:users` the marker is recognised on the trimmed
copy, but the name is sliced from the untrimmed line, so the Table is `e:users`
and not `users`. -/
theorem table_of_indented_marker (caseTable : Nat → Nat) :
    isCreateMarker caseTable (bytes "  --create:users") = true
    ∧ extractSQLSection caseTable (bytes "  --create:users\nCREATE TABLE users (id int);") true
      = Outcome.ok { Table := bytes "e:users", SQL := bytes "CREATE TABLE users (id int);" } :=
  ⟨by rfl, by rfl⟩

/-- C8: in the skeleton written for the base name `orders` the DROP marker line
is indented by two tabs, and the Drop section read back from it has the Table
`p:orders`; the Create section has the Table `orders`. -/
theorem skeleton_read_back (caseTable : Nat → Nat) :
    (∃ sql, extractSQLSection caseTable (generateSQLFile (bytes "orders")) false
      = Outcome.ok { Table := bytes "p:orders", SQL := sql })
    ∧ (∃ sql, extractSQLSection caseTable (generateSQLFile (bytes "orders")) true
      = Outcome.ok { Table := bytes "orders", SQL := sql }) :=
  ⟨⟨bytes "\t\t--replace table_name with your table\n\t\t--write your drop query\n\t\t", by rfl⟩,
    ⟨bytes "\t\t--replace table_name with your table\n\t\t--write your create query\n", by rfl⟩⟩

/-- C9: a text without a CREATE marker line gives, under Create, the error
`table name not found in SQL header`; a text with neither a CREATE nor a DROP
marker line gives it under both operations; and so does the empty text and any
text of ASCII white space, for which the error is not the one about an empty
body. -/
theorem extractSQLSection_missing_marker (caseTable : Nat → Nat) (text : GoString) :
    ((∀ l ∈ Split text newline, isCreateMarker caseTable l = false) →
      extractSQLSection caseTable text true
        = Outcome.error (bytes "table name not found in SQL header"))
    ∧ ((∀ l ∈ Split text newline,
          isCreateMarker caseTable l = false ∧ isDropMarker caseTable l = false) →
        ∀ isCreate, extractSQLSection caseTable text isCreate
          = Outcome.error (bytes "table name not found in SQL header"))
    ∧ ((∀ b ∈ text, asciiSpace b = true) →
        ∀ isCreate, extractSQLSection caseTable text isCreate
          = Outcome.error (bytes "table name not found in SQL header")) := by
  have part2 : (∀ l ∈ Split text newline,
        isCreateMarker caseTable l = false ∧ isDropMarker caseTable l = false) →
      ∀ isCreate, extractSQLSection caseTable text isCreate
        = Outcome.error (bytes "table name not found in SQL header") := by
    intro h isCreate
    obtain ⟨st1, h1, _, _, h4⟩ := scanLines_append caseTable isCreate (Split text newline)
      (fun l hl => (h l hl).2) 0 (initialState (Split text newline))
    have h5 := h4 (Or.inr (fun l hl => (h l hl).1))
    have h6 := h1 []
    rw [List.append_nil] at h6
    simp only [scanLines] at h6
    rw [h5] at h6
    exact extract_of_scan_noTable caseTable text isCreate _ h6 rfl
  refine ⟨?_, part2, ?_⟩
  · intro h
    obtain ⟨st1, h1, h2⟩ := scanLines_noCreate caseTable (Split text newline) h 0
      (initialState (Split text newline))
    exact extract_of_scan_noTable caseTable text true st1 h1 h2
  · intro h
    apply part2
    intro l hl
    exact not_marker_of_asciiSpace caseTable l
      (fun b hb => h b (Split_mem_bytes text newline l hl b hb))

/-- C9 at concrete texts: a file with only a DROP section under Create, a file
of plain SQL, and the empty text. -/
theorem extractSQLSection_missing_marker_witness :
    extractSQLSection noCase (bytes "--drop:t\nDROP TABLE t;") true
      = Outcome.error (bytes "table name not found in SQL header")
    ∧ extractSQLSection noCase (bytes "SELECT 1;") false
      = Outcome.error (bytes "table name not found in SQL header")
    ∧ extractSQLSection noCase [] true
      = Outcome.error (bytes "table name not found in SQL header") :=
  ⟨(extractSQLSection_missing_marker noCase (bytes "--drop:t\nDROP TABLE t;")).1 (by decide),
    (extractSQLSection_missing_marker noCase (bytes "SELECT 1;")).2.1 (by decide) false,
    (extractSQLSection_missing_marker noCase []).2.2 (by decide) true⟩

/-- C10: extractSQLSection never panics.  A line recognised as a CREATE marker
line has at least 9 bytes and one recognised as a DROP marker line at least 7,
so the slices `line[len("--create:"):]` and `line[len("--drop:"):]` are in
range; and the loop ends with `0 ≤ start ≤ end ≤ len(lines)`, so the slice
`lines[start:end]` is in range. -/
theorem extractSQLSection_total (caseTable : Nat → Nat) (text : GoString) (isCreate : Bool) :
    extractSQLSection caseTable text isCreate ≠ Outcome.panic
    ∧ (∀ line : GoString,
        (isCreateMarker caseTable line = true →
          9 ≤ line.length ∧ sliceFrom line createMarker.length ≠ none)
        ∧ (isDropMarker caseTable line = true →
          7 ≤ line.length ∧ sliceFrom line dropMarker.length ≠ none))
    ∧ ∃ st, scanLines caseTable isCreate (Split text newline) 0
          (initialState (Split text newline)) = Outcome.ok st
        ∧ 0 ≤ st.start ∧ st.start ≤ st.stop ∧ st.stop ≤ (Split text newline).length
        ∧ sliceLines (Split text newline) st.start st.stop ≠ none := by
  obtain ⟨st, h1, h2, h3⟩ := scanLines_bounds caseTable isCreate (Split text newline) 0
    (initialState (Split text newline)) (Nat.le_refl 0) (by simp [initialState])
  rw [Nat.zero_add] at h3
  refine ⟨?_, ?_, st, h1, Nat.zero_le _, h2, h3, by simp [sliceLines, h2, h3]⟩
  · by_cases ht : st.table = []
    · rw [extract_of_scan_noTable caseTable text isCreate st h1 ht]
      exact fun h => Outcome.noConfusion h
    · rw [extract_of_scan caseTable text isCreate st h1 ht ⟨h2, h3⟩]
      split_ifs <;> exact fun h => Outcome.noConfusion h
  · intro line
    constructor
    · intro h
      have := createMarker_length_le caseTable line h
      have h9 : createMarker.length = 9 := by decide
      exact ⟨by omega, by simp [sliceFrom, this]⟩
    · intro h
      have := dropMarker_length_le caseTable line h
      have h7 : dropMarker.length = 7 := by decide
      exact ⟨by omega, by simp [sliceFrom, this]⟩

/-- C4, as stated, fails: with two CREATE marker lines before the DROP marker
line the section comes from the second one, Table `b` and body `Y`. -/
theorem duplicate_create_counterexample :
    extractSQLSection noCase duplicatesFile true
      = Outcome.ok { Table := bytes "b", SQL := bytes "Y" } := by
  decide

/-- C4, amended: under Drop the first DROP marker line sets the Table and the
body start, whatever follows it; under Create the loop stops at the first DROP
marker line, and of the CREATE marker lines before it the last one sets the
Table and the body start. -/
theorem duplicate_markers (caseTable : Nat → Nat) (text : GoString) :
    (∀ pre d post, Split text newline = pre ++ d :: post →
      (∀ l ∈ pre, isDropMarker caseTable l = false) →
      isDropMarker caseTable d = true →
      scanLines caseTable false (Split text newline) 0 (initialState (Split text newline))
        = Outcome.ok
            { start := pre.length + 1
              stop := (Split text newline).length
              table := TrimSpace (d.drop dropMarker.length) })
    ∧ (∀ pre c mid rest, Split text newline = pre ++ c :: mid ++ rest →
      (∀ l ∈ pre, isDropMarker caseTable l = false) →
      isCreateMarker caseTable c = true →
      (∀ l ∈ mid, isCreateMarker caseTable l = false ∧ isDropMarker caseTable l = false) →
      (rest = [] ∨ ∃ d rest1, rest = d :: rest1 ∧ isDropMarker caseTable d = true) →
      scanLines caseTable true (Split text newline) 0 (initialState (Split text newline))
        = Outcome.ok
            { start := pre.length + 1
              stop := pre.length + 1 + mid.length
              table := TrimSpace (c.drop createMarker.length) }) := by
  constructor
  · intro pre d post hl hpre hd
    rw [hl, scanLines_drop_section caseTable pre post d hpre hd]
    simp only [List.length_append, List.length_cons, Outcome.ok.injEq, ScanState.mk.injEq]
    exact ⟨trivial, by omega, trivial⟩
  · intro pre c mid rest hl hpre hc hmid hrest
    rw [hl]
    exact scanLines_create_section caseTable pre mid rest c hpre hc hmid hrest

/-- C4, amended, at the file with two CREATE and two DROP marker lines: Drop
takes the first DROP marker line (line 4), Create the second CREATE marker
line (line 2). -/
theorem duplicate_markers_witness :
    scanLines noCase false (Split duplicatesFile newline) 0
        (initialState (Split duplicatesFile newline))
      = Outcome.ok { start := 5, stop := 8, table := bytes "a" }
    ∧ scanLines noCase true (Split duplicatesFile newline) 0
        (initialState (Split duplicatesFile newline))
      = Outcome.ok { start := 3, stop := 4, table := bytes "b" } :=
  ⟨(duplicate_markers noCase duplicatesFile).1
      [bytes "--create:a", bytes "X", bytes "--create:b", bytes "Y"] (bytes "--drop:a")
      [bytes "Z", bytes "--drop:b", bytes "W"] (by decide) (by decide) (by decide),
    (duplicate_markers noCase duplicatesFile).2
      [bytes "--create:a", bytes "X"] (bytes "--create:b") [bytes "Y"]
      [bytes "--drop:a", bytes "Z", bytes "--drop:b", bytes "W"] (by decide) (by decide)
      (by decide) (by decide) (Or.inr ⟨_, _, rfl, by decide⟩)⟩

/-- C6: for every SQL body, schema and table the Drop result is a body without
semicolon followed by ` CASCADE;`: it ends with that suffix, holds exactly one
semicolon, which is its last byte, and ` CASCADE;` occurs nowhere else in it. -/
theorem drop_result_cascade (sql schema table : GoString) :
    (∃ body, applySchemaExact sql schema table false = body ++ bytes " CASCADE;"
      ∧ 0x3B ∉ body)
    ∧ bytes " CASCADE;" <:+ applySchemaExact sql schema table false
    ∧ (applySchemaExact sql schema table false).count 0x3B = 1
    ∧ (applySchemaExact sql schema table false).getLast? = some 0x3B
    ∧ ∀ a b, applySchemaExact sql schema table false = a ++ bytes " CASCADE;" ++ b → b = [] := by
  have hC : bytes " CASCADE;" = [32, 67, 65, 83, 67, 65, 68, 69] ++ [0x3B] := by decide
  have hsemi : bytes ";" = [0x3B] := by decide
  have hr : applySchemaExact sql schema table false
      = ReplaceAll (ReplaceAll sql table (schema ++ bytes "." ++ table)) [0x3B] []
        ++ bytes " CASCADE;" := by
    simp [applySchemaExact, hsemi]
  have hbody := ReplaceAll_remove 0x3B (ReplaceAll sql table (schema ++ bytes "." ++ table))
  generalize ReplaceAll (ReplaceAll sql table (schema ++ bytes "." ++ table)) [0x3B] [] = body
    at hr hbody
  have hcount : (applySchemaExact sql schema table false).count 0x3B = 1 := by
    rw [hr, List.count_append, List.count_eq_zero_of_not_mem hbody, hC]
    decide
  refine ⟨⟨body, hr, hbody⟩, ⟨body, hr.symm⟩, hcount, ?_, ?_⟩
  · rw [hr, hC, ← List.append_assoc, List.getLast?_append]
    rfl
  · intro a b hab
    rcases List.eq_nil_or_concat b with hb | ⟨b1, x, hb⟩
    · exact hb
    · exfalso
      have hcount2 := hcount
      rw [hab, List.count_append, List.count_append, hC] at hcount2
      have hc1 : List.count 0x3B ([32, 67, 65, 83, 67, 65, 68, 69] ++ [0x3B]) = 1 := by decide
      rw [hc1] at hcount2
      have hb0 : List.count 0x3B b = 0 := by omega
      have hxb : x ∈ b := by
        rw [hb]
        simp
      have hx : x = 0x3B := by
        have e : (body ++ [32, 67, 65, 83, 67, 65, 68, 69]) ++ [0x3B]
            = (a ++ bytes " CASCADE;" ++ b1) ++ [x] := by
          rw [List.append_assoc body, ← hC, ← hr, hab, hb, List.concat_eq_append,
            List.append_assoc, List.append_assoc, List.append_assoc]
        have := (List.append_inj' e rfl).2
        simp only [List.cons.injEq, and_true] at this
        exact this.symm
      rw [hx] at hxb
      exact (List.count_eq_zero.mp hb0) hxb

/-- C7: in Create mode, for every schema and every non-empty table, applying
applySchemaExact twice equals applying it once exactly when the SQL body holds
no instance of the table name.  On a body that holds the table name the
qualified body holds it again and the second application yields a strictly
longer string; on a body without it the function is the identity. -/
theorem create_twice_eq_once_iff (sql schema table : GoString) (h : table ≠ []) :
    (applySchemaExact (applySchemaExact sql schema table true) schema table true
        = applySchemaExact sql schema table true
      ↔ ¬ table <:+: sql)
    ∧ (table <:+: sql →
        table <:+: applySchemaExact sql schema table true
        ∧ (applySchemaExact sql schema table true).length
          < (applySchemaExact (applySchemaExact sql schema table true) schema table true).length)
    ∧ (¬ table <:+: sql → applySchemaExact sql schema table true = sql) := by
  have hnew : table <:+: schema ++ bytes "." ++ table := (List.suffix_append _ _).isInfix
  have hlen : table.length < (schema ++ bytes "." ++ table).length := by
    have h1 : (bytes ".").length = 1 := by decide
    simp only [List.length_append, h1]
    omega
  have grow : table <:+: sql →
      table <:+: applySchemaExact sql schema table true
      ∧ (applySchemaExact sql schema table true).length
        < (applySchemaExact (applySchemaExact sql schema table true) schema table true).length := by
    intro hi
    have h1 : table <:+: applySchemaExact sql schema table true := by
      rw [applySchemaExact_create sql schema table h]
      exact replaceFrom_keeps_instance table _ hnew h sql hi
    refine ⟨h1, ?_⟩
    rw [applySchemaExact_create (applySchemaExact sql schema table true) schema table h]
    exact length_lt_replaceFrom table _ hlen h _ h1
  have same : ¬ table <:+: sql → applySchemaExact sql schema table true = sql := by
    intro hi
    rw [applySchemaExact_create sql schema table h]
    exact replaceFrom_of_absent table _ sql hi
  refine ⟨⟨?_, ?_⟩, grow, same⟩
  · intro heq hi
    have := (grow hi).2
    rw [heq] at this
    exact Nat.lt_irrefl _ this
  · intro hi
    rw [same hi, same hi]

/-- C7 at the widgets statement: the body holds the table name, and the second
application qualifies the qualified name again. -/
theorem create_twice_eq_once_iff_witness :
    bytes "widgets" <:+: applySchemaExact (bytes "CREATE TABLE widgets (id int);")
        (bytes "app") (bytes "widgets") true
    ∧ (applySchemaExact (bytes "CREATE TABLE widgets (id int);")
        (bytes "app") (bytes "widgets") true).length
      < (applySchemaExact (applySchemaExact (bytes "CREATE TABLE widgets (id int);")
          (bytes "app") (bytes "widgets") true) (bytes "app") (bytes "widgets") true).length
    ∧ applySchemaExact (applySchemaExact (bytes "CREATE TABLE widgets (id int);")
          (bytes "app") (bytes "widgets") true) (bytes "app") (bytes "widgets") true
      = bytes "CREATE TABLE app.app.widgets (id int);" :=
  ⟨((create_twice_eq_once_iff (bytes "CREATE TABLE widgets (id int);") (bytes "app")
      (bytes "widgets") (by decide)).2.1
        ⟨bytes "CREATE TABLE ", bytes " (id int);", by decide⟩).1,
    ((create_twice_eq_once_iff (bytes "CREATE TABLE widgets (id int);") (bytes "app")
      (bytes "widgets") (by decide)).2.1
        ⟨bytes "CREATE TABLE ", bytes " (id int);", by decide⟩).2,
    by decide⟩

/-- C5, as stated, fails: a CREATE section that holds only an indented empty
line and an SQL comment line is returned as a Section. -/
theorem comment_body_counterexample :
    extractSQLSection noCase commentOnlyFile true
      = Outcome.ok { Table := bytes "t", SQL := bytes "  \n-- todo" } := by
  decide

/-- C5, amended: take the section of the requested operation as the loop finds
it.  Under Create it is a CREATE marker line with no DROP marker line before
it, and its body is the lines after it up to the next marker line, which is a
DROP marker line, or up to the end of the file when no marker line follows.
Under Drop it is the first DROP marker line, and its body is every line after
it.  Let the table name taken from the marker line be non-empty.  If every body
line consists only of white space, extractSQLSection returns the error
`empty SQL body for table` followed by the table name, and no Section.  If some
body line is an SQL comment line, extractSQLSection returns the Section of that
table name whose SQL is the body lines joined by newlines. -/
theorem extractSQLSection_blank_body (caseTable : Nat → Nat) (text : GoString) :
    (∀ pre c body rest, CreateSection caseTable text pre c body rest →
      ((∀ l ∈ body, WhiteSpaceOnly l) →
        extractSQLSection caseTable text true
          = Outcome.error
              (bytes "empty SQL body for table " ++ TrimSpace (c.drop createMarker.length)))
      ∧ ((∃ l ∈ body, isCommentLine l = true) →
        extractSQLSection caseTable text true
          = Outcome.ok
              { Table := TrimSpace (c.drop createMarker.length)
                SQL := Join body [newline] }))
    ∧ (∀ pre d body, DropSection caseTable text pre d body →
      ((∀ l ∈ body, WhiteSpaceOnly l) →
        extractSQLSection caseTable text false
          = Outcome.error
              (bytes "empty SQL body for table " ++ TrimSpace (d.drop dropMarker.length)))
      ∧ ((∃ l ∈ body, isCommentLine l = true) →
        extractSQLSection caseTable text false
          = Outcome.ok
              { Table := TrimSpace (d.drop dropMarker.length)
                SQL := Join body [newline] })) := by
  constructor
  · intro pre c body rest h
    have hx := extract_create_section caseTable text pre body rest c h.lines h.noDropBefore
      h.createLine h.bodyLines h.ends h.name
    constructor
    · intro hbody
      rw [hx, if_pos (TrimSpace_Join_blank body hbody)]
    · intro hbody
      rw [hx, if_neg (TrimSpace_Join_comment body hbody)]
  · intro pre d body h
    have hx := extract_drop_section caseTable text pre body d h.lines h.noDropBefore
      h.dropLine h.name
    constructor
    · intro hbody
      rw [hx, if_pos (TrimSpace_Join_blank body hbody)]
    · intro hbody
      rw [hx, if_neg (TrimSpace_Join_comment body hbody)]

/-- C5, amended, at a file whose two sections hold only white space and at a
file whose two sections hold one comment line each. -/
theorem extractSQLSection_blank_body_witness :
    extractSQLSection noCase blankBodyFile true
      = Outcome.error (bytes "empty SQL body for table t")
    ∧ extractSQLSection noCase blankBodyFile false
      = Outcome.error (bytes "empty SQL body for table t")
    ∧ extractSQLSection noCase todoFile true
      = Outcome.ok { Table := bytes "t", SQL := bytes "-- todo" }
    ∧ extractSQLSection noCase todoFile false
      = Outcome.ok { Table := bytes "t", SQL := bytes "  -- later\n" } :=
  ⟨((extractSQLSection_blank_body noCase blankBodyFile).1 [] (bytes "--create:t")
      [bytes "  ", bytes "\t"] [bytes "--drop:t", bytes " 　", []]
      { lines := by decide
        noDropBefore := by decide
        createLine := by decide
        bodyLines := by decide
        ends := Or.inr ⟨_, _, rfl, by decide⟩
        name := by decide }).1
      (by
        intro l hl
        simp only [List.mem_cons, List.mem_singleton, List.not_mem_nil, or_false] at hl
        rcases hl with h | h
        · subst h
          exact ⟨[0x20, 0x20], by decide, by decide⟩
        · subst h
          exact ⟨[0x09], by decide, by decide⟩),
    ((extractSQLSection_blank_body noCase blankBodyFile).2
      [bytes "--create:t", bytes "  ", bytes "\t"] (bytes "--drop:t") [bytes " 　", []]
      { lines := by decide
        noDropBefore := by decide
        dropLine := by decide
        name := by decide }).1
      (by
        intro l hl
        simp only [List.mem_cons, List.mem_singleton, List.not_mem_nil, or_false] at hl
        rcases hl with h | h
        · subst h
          exact ⟨[0x20, 0x3000], by decide, by decide⟩
        · subst h
          exact WhiteSpaceOnly_nil),
    ((extractSQLSection_blank_body noCase todoFile).1 [] (bytes "--create:t")
      [bytes "-- todo"] [bytes "--drop:t", bytes "  -- later", []]
      { lines := by decide
        noDropBefore := by decide
        createLine := by decide
        bodyLines := by decide
        ends := Or.inr ⟨_, _, rfl, by decide⟩
        name := by decide }).2
      ⟨bytes "-- todo", by decide, by decide⟩,
    ((extractSQLSection_blank_body noCase todoFile).2
      [bytes "--create:t", bytes "-- todo"] (bytes "--drop:t") [bytes "  -- later", []]
      { lines := by decide
        noDropBefore := by decide
        dropLine := by decide
        name := by decide }).2
      ⟨bytes "  -- later", by decide, by decide⟩⟩

end SqlRunner
